import Mathlib

/-!
# Verification of the use-styled variant-resolution library

Shallow embedding of the variant-resolution and property-merging code of the
use-styled repository, together with proofs about it.

The repository ships several implementations of the same pipeline; each is
embedded under its own namespace, faithful to its own source file:

* namespace IndexImpl  — src/index.tsx (cn, mergeProps, applyBaseVariants,
  applyCompoundVariants, separateProps, the StyledComponent render body);
* namespace GuardImpl  — src/unnamed/part_000 (the variant of index.tsx with
  isBooleanVariant and the boolean-variant guard in applyBaseVariants);
* namespace UtilsImpl  — src/helpers/utils.ts (mergeStyles, cn,
  checkCompoundVariantConditions, resolveVariantProps,
  resolveCompoundVariantProps, mergeFinalProps);
* namespace StyledV1   — the prop separation / default fill of the first
  useStyled in src/src/useStyled.tsx;
* namespace SlotImpl   — src/src/useSlot.tsx.

JavaScript objects are modelled as association lists in insertion order
(`Obj`), which is how `Object.entries` / `for ... in` enumerate the
string-keyed own properties that this code manipulates (none of the property
names used by the library are integer-like, so the integer-key reordering of
the JS spec does not arise, and no Symbol-keyed or inherited enumerable
properties occur on these plain literals).  Property reads only see own
properties; prototype-chain hits (e.g. a variant selection value equal to
"toString") are not modelled.
-/

/-- A JavaScript runtime value, as far as this library inspects values:
`undefined`, `null`, booleans, strings, numbers (the code only compares and
stringifies them, so integers suffice), and plain objects as ordered field
lists.  Functions, arrays and other exotic objects are not distinguished
from plain objects by any code path embedded here. -/
inductive JSVal : Type where
  | undef : JSVal
  | null : JSVal
  | bool : Bool → JSVal
  | str : String → JSVal
  | num : Int → JSVal
  | obj : List (String × JSVal) → JSVal

instance : Inhabited JSVal := ⟨.undef⟩

/-- A JavaScript object: string-keyed own enumerable properties in insertion
order.  Objects built by the embedded code never carry duplicate keys; where
a proof needs that fact about an input object it takes it as a hypothesis. -/
abbrev Obj := List (String × JSVal)

namespace JSVal

/-- JS truthiness. -/
def truthy : JSVal → Bool
  | undef => false
  | null => false
  | bool b => b
  | str s => s != ""
  | num n => n != 0
  | obj _ => true

/-- `v === undefined`. -/
def isUndef : JSVal → Bool
  | undef => true
  | _ => false

/-- `typeof v === "string"`. -/
def isString : JSVal → Bool
  | str _ => true
  | _ => false

/-- `typeof v === "object" && v !== null`. -/
def isObjectType : JSVal → Bool
  | obj _ => true
  | _ => false

/-- The own enumerable string-keyed fields a value contributes when spread
or `Object.assign`ed: the fields of an object, nothing for primitives
(string character indices are not modelled; the code only spreads style
objects). -/
def fields : JSVal → Obj
  | obj fs => fs
  | _ => []

/-- JS `String(v)` conversion as used for variant lookup keys. -/
def toStr : JSVal → String
  | undef => "undefined"
  | null => "null"
  | bool true => "true"
  | bool false => "false"
  | str s => s
  | num n => toString n
  | obj _ => "[object Object]"

/-- JS strict equality `===` on the values that reach variant conditions.
Two object values compare by reference identity, which the embedding does
not track; the configuration types confine condition and selection values
to strings and booleans, so the `obj` case (conservatively `false`, as for
distinct literals) is unreachable in typed configurations. -/
def strictEq : JSVal → JSVal → Bool
  | undef, undef => true
  | null, null => true
  | bool a, bool b => a == b
  | str a, str b => a == b
  | num a, num b => a == b
  | _, _ => false

end JSVal

/-- First defined alternative: `a` if it is `some`, else `b`. -/
def firstSome {α : Type} (a b : Option α) : Option α :=
  match a with
  | some v => some v
  | none => b

@[simp]
theorem firstSome_some {α : Type} (v : α) (b : Option α) :
    firstSome (some v) b = some v := rfl

@[simp]
theorem firstSome_none {α : Type} (b : Option α) : firstSome none b = b := rfl

theorem firstSome_assoc {α : Type} (a b c : Option α) :
    firstSome (firstSome a b) c = firstSome a (firstSome b c) := by
  cases a <;> simp

namespace Obj

/-- Property read `o[k]` on own properties, as an option (absent = `none`). -/
def get (o : Obj) (k : String) : Option JSVal :=
  match o with
  | [] => none
  | kv :: t => if kv.1 == k then some kv.2 else get t k

/-- Property read `o[k]` as the JS expression evaluates: `undefined` when
the key is absent. -/
def getD (o : Obj) (k : String) : JSVal :=
  Option.getD (o.get k) JSVal.undef

/-- `k in o` / `Object.prototype.hasOwnProperty.call(o, k)`. -/
def has (o : Obj) (k : String) : Bool :=
  match o with
  | [] => false
  | kv :: t => kv.1 == k || has t k

/-- Property write `o[k] = v`: updates the entry in place if the key
exists (keeping its position, as JS does), else appends.  JS objects never
hold duplicate keys, so replacing the first occurrence is exact. -/
def set (o : Obj) (k : String) (v : JSVal) : Obj :=
  match o with
  | [] => [(k, v)]
  | kv :: t => if kv.1 == k then (k, v) :: t else kv :: set t k v

/-- `Object.assign(target, source)` / the tail of a spread: write every
source entry onto the target in order. -/
def assign (target source : Obj) : Obj :=
  source.foldl (fun acc kv => acc.set kv.1 kv.2) target

/-- `Object.keys(o)`. -/
def keys (o : Obj) : List String :=
  o.map Prod.fst

/-- The value of the last entry with key `k`, if any.  On objects with
unique keys this agrees with `get`; it describes the outcome of writing
an entry list onto an object in order. -/
def getLast (o : Obj) (k : String) : Option JSVal :=
  o.foldl (fun acc kv => if kv.1 == k then some kv.2 else acc) none

/-- The value of the last entry with key `k` whose value is defined
(not `undefined`), if any. -/
def getLastDef (o : Obj) (k : String) : Option JSVal :=
  o.foldl (fun acc kv => if kv.1 == k && !kv.2.isUndef then some kv.2 else acc) none

@[simp]
theorem get_nil (k : String) : get [] k = none := rfl

@[simp]
theorem get_cons (kv : String × JSVal) (o : Obj) (k : String) :
    get (kv :: o) k = if kv.1 == k then some kv.2 else get o k := rfl

@[simp]
theorem has_nil (k : String) : has [] k = false := rfl

@[simp]
theorem has_cons (kv : String × JSVal) (o : Obj) (k : String) :
    has (kv :: o) k = (kv.1 == k || has o k) := rfl

theorem getLast_foldl_init (o : Obj) (k : String) (a : Option JSVal) :
    o.foldl (fun acc kv => if kv.1 == k then some kv.2 else acc) a
      = firstSome (getLast o k) a := by
  induction o generalizing a with
  | nil => simp [getLast]
  | cons kv t ih =>
    simp only [getLast, List.foldl_cons]
    rw [ih, ih]
    by_cases h : kv.1 == k <;> simp [h, firstSome_assoc]

theorem getLast_cons (kv : String × JSVal) (o : Obj) (k : String) :
    getLast (kv :: o) k
      = firstSome (getLast o k) (if kv.1 == k then some kv.2 else none) := by
  simp only [getLast, List.foldl_cons]
  rw [getLast_foldl_init]
  rfl

theorem getLastDef_foldl_init (o : Obj) (k : String) (a : Option JSVal) :
    o.foldl (fun acc kv => if kv.1 == k && !kv.2.isUndef then some kv.2 else acc) a
      = firstSome (getLastDef o k) a := by
  induction o generalizing a with
  | nil => simp [getLastDef]
  | cons kv t ih =>
    simp only [getLastDef, List.foldl_cons]
    rw [ih, ih]
    by_cases h : kv.1 == k && !kv.2.isUndef <;> simp [h, firstSome_assoc]

theorem getLastDef_cons (kv : String × JSVal) (o : Obj) (k : String) :
    getLastDef (kv :: o) k
      = firstSome (getLastDef o k)
          (if kv.1 == k && !kv.2.isUndef then some kv.2 else none) := by
  simp only [getLastDef, List.foldl_cons]
  rw [getLastDef_foldl_init]
  rfl

@[simp]
theorem get_set_self (o : Obj) (k : String) (v : JSVal) :
    get (set o k v) k = some v := by
  induction o with
  | nil => simp [set]
  | cons hd t ih => by_cases h : hd.1 == k <;> simp [set, h, ih]

theorem get_set_ne (o : Obj) (k k' : String) (v : JSVal) (h : k' ≠ k) :
    get (set o k v) k' = get o k' := by
  have hk : (k == k') = false := by
    rw [beq_eq_false_iff_ne]
    exact Ne.symm h
  induction o with
  | nil => simp [set, hk]
  | cons hd t ih =>
    by_cases hh : hd.1 == k
    · have hd1 : (hd.1 == k') = false := by
        rw [beq_eq_false_iff_ne]
        rw [show hd.1 = k from by simpa using hh]
        exact Ne.symm h
      simp [set, hh, hk, hd1]
    · by_cases h2 : hd.1 == k' <;> simp [set, hh, h2, ih]

theorem get_assign (t s : Obj) (k : String) :
    get (assign t s) k = firstSome (getLast s k) (get t k) := by
  induction s generalizing t with
  | nil => simp [assign, getLast]
  | cons kv tl ih =>
    simp only [assign, List.foldl_cons] at *
    rw [ih (t.set kv.1 kv.2), getLast_cons, firstSome_assoc]
    congr 1
    by_cases h : kv.1 == k
    · have hk : kv.1 = k := by simpa using h
      subst hk
      simp
    · rw [get_set_ne _ _ _ _ (by
        intro he
        exact absurd (by simp [he] : (kv.1 == k) = true) (by simpa using h))]
      simp [h]

end Obj

/-! ## Class-name utilities (clsx / tailwind-merge collaborators) -/

/-- The class tokens one `clsx` input contributes: a non-empty string is a
token, a non-zero number is stringified, a conditional object contributes
the keys with truthy values, and nullish/boolean inputs contribute
nothing.  (Nested arrays do not occur in the embedded call sites.) -/
def clsxTokens : JSVal → List String
  | .str s => if s = "" then [] else [s]
  | .num n => if n = 0 then [] else [toString n]
  | .obj fs => fs.filterMap (fun kv => if kv.2.truthy then some kv.1 else none)
  | _ => []

/-- `clsx(inputs)`: the contributed tokens joined by single spaces. -/
def clsx (inputs : List JSVal) : String :=
  String.intercalate " " (inputs.map clsxTokens).flatten

/-- Modelled from the spec: `tailwind-merge` is the external class-name
deduplication/conflict-resolution collaborator, declared out of scope by
the spec (section 1); only its behaviour on the empty string (it keeps it
empty) and on conflict-free token lists (it keeps them) matters to the
claims, so it is modelled as the identity on the joined token string. -/
def twMerge (s : String) : String := s

/-- `{ ...a, ...b }`: a fresh object built by spreading `a` then `b`. -/
def spread2 (a b : Obj) : Obj :=
  Obj.assign (Obj.assign [] a) b

/-- `config.base` etc. default to `{}` / stay `undefined` as each call site
demands; this is the `x || {}`-style defaulting. -/
def orEmpty (o : Option Obj) : Obj :=
  match o with
  | some x => x
  | none => []

/-- A variant category: option key to property set, in declaration order. -/
abbrev VariantDef := List (String × Obj)

/-- The `variants` table: category name to category, in declaration order. -/
abbrev Variants := List (String × VariantDef)

/-- `variants[key]` (own property, like `Obj.get`). -/
def lookupDef (vs : Variants) (k : String) : Option VariantDef :=
  match vs with
  | [] => none
  | kv :: t => if kv.1 == k then some kv.2 else lookupDef t k

/-- `variantDef[lookupKey]` (own property, like `Obj.get`). -/
def lookupStyles (vd : VariantDef) (k : String) : Option Obj :=
  match vd with
  | [] => none
  | kv :: t => if kv.1 == k then some kv.2 else lookupStyles t k

/-- `Object.keys(variants)` with the `variants ? ... : []` defaulting. -/
def variantKeysOf (variants : Option Variants) : List String :=
  match variants with
  | none => []
  | some vs => vs.map Prod.fst

/-!
## IndexImpl — src/index.tsx

The entry-point implementation: `cn`, `mergeProps`, and inside `useStyled`
the helpers `applyCompoundVariants`, `applyBaseVariants`, `separateProps`,
and the render body of `StyledComponent`.  `logEvent` calls only write to
the console and never touch the data flow, so they are omitted.
-/

namespace IndexImpl

/-- src/index.tsx `cn`: `twMerge(clsx(inputs))`. -/
def cn (inputs : List JSVal) : String :=
  twMerge (clsx inputs)

/-- One entry of the `mergeProps` inner loop of src/index.tsx: skip
`undefined` values; merge a string `className` through `cn`; merge an
object `style` by spread; plain-assign everything else. -/
def mergePairStep (result : Obj) (kv : String × JSVal) : Obj :=
  if kv.2.isUndef then result
  else if kv.1 == "className" && kv.2.isString then
    result.set "className" (.str (cn [result.getD "className", kv.2]))
  else if kv.1 == "style" && kv.2.isObjectType then
    result.set "style" (.obj (spread2 (result.getD "style").fields kv.2.fields))
  else result.set kv.1 kv.2

/-- The `mergeProps` loop body for one (non-skipped) props object. -/
def mergePair (result props : Obj) : Obj :=
  props.foldl mergePairStep result

/-- src/index.tsx `mergeProps(...propsList)`: skipped entries are
`undefined`/`null` arguments (dropped by `.filter(Boolean)`). -/
def mergeProps (propsList : List (Option Obj)) : Obj :=
  (propsList.filterMap id).foldl mergePair []

/-- `const { className, style, ...conditions } = compound`. -/
def compoundConditions (compound : Obj) : Obj :=
  compound.filter (fun kv => !(kv.1 == "className") && !(kv.1 == "style"))

/-- The condition loop of `applyCompoundVariants`: every condition key must
be strictly equal (`!==` mismatch breaks out) on the current props.  On the
unique-keyed objects JS produces, `conditions[key]` is the entry's value. -/
def compoundMatches (compound : Obj) (currentProps : Obj) : Bool :=
  (compoundConditions compound).all
    (fun kv => JSVal.strictEq (Obj.getD currentProps kv.1) kv.2)

/-- The effect-collection loop: every key of the compound rule that is not
an own property of `conditions`. -/
def compoundEffects (compound : Obj) : Obj :=
  compound.filter (fun kv => !(Obj.has (compoundConditions compound) kv.1))

/-- The `applyCompoundVariants` loop body for one compound rule. -/
def compoundStep (currentProps : Obj) (acc : Obj) (compound : Obj) : Obj :=
  if compoundMatches compound currentProps then
    mergeProps [some acc, some (compoundEffects compound)]
  else acc

/-- src/index.tsx `applyCompoundVariants`. -/
def applyCompoundVariants (compoundVariants : Option (List Obj))
    (currentProps : Obj) : Obj :=
  match compoundVariants with
  | none => []
  | some rules =>
    if rules.length = 0 then []
    else rules.foldl (compoundStep currentProps) []

/-- The `applyBaseVariants` loop body for one variant category key. -/
def baseVariantStep (vs : Variants) (defaultVariants : Option Obj)
    (currentProps : Obj) (variantProps : Obj) (key : String) : Obj :=
  match lookupDef vs key with
  | none => variantProps
  | some variantDef =>
    let propValue0 := Obj.getD currentProps key
    let propValue :=
      if propValue0.isUndef then
        match defaultVariants with
        | some dv => Obj.getD dv key
        | none => JSVal.undef
      else propValue0
    if propValue.isUndef then variantProps
    else
      match lookupStyles variantDef propValue.toStr with
      | some variantStyles => mergeProps [some variantProps, some variantStyles]
      | none => variantProps

/-- src/index.tsx `applyBaseVariants`: process categories in the declared
order of `variants`; fall back to `defaultVariants` when the prop is
`undefined`; stringify for lookup; missing lookups contribute nothing. -/
def applyBaseVariants (variants : Option Variants) (defaultVariants : Option Obj)
    (currentProps : Obj) : Obj :=
  match variants with
  | none => []
  | some vs =>
    (vs.map Prod.fst).foldl (baseVariantStep vs defaultVariants currentProps) []

/-- The `separateProps` loop body of src/index.tsx for one prop entry. -/
def separateStep (variantKeys : List String) (acc : Obj × Obj)
    (kv : String × JSVal) : Obj × Obj :=
  if kv.2.isUndef then acc
  else if variantKeys.contains kv.1 then (acc.1.set kv.1 kv.2, acc.2)
  else (acc.1, acc.2.set kv.1 kv.2)

/-- src/index.tsx `separateProps`: split the instance props into variant
selections and direct props, skipping `undefined` values entirely. -/
def separateProps (variantKeys : List String) (allProps : Obj) : Obj × Obj :=
  allProps.foldl (separateStep variantKeys) ([], [])

/-- The active selection of the src/index.tsx render body:
`{ ...defaultVariants, ...variantProps }` after `children` is destructured
away and the props are separated. -/
def activeSelection (variants : Option Variants) (defaultVariants : Option Obj)
    (props : Obj) : Obj :=
  let restProps := props.filter (fun kv => !(kv.1 == "children"))
  let sep := separateProps (variantKeysOf variants) restProps
  spread2 (orEmpty defaultVariants) sep.1

/-- The render body of src/index.tsx `StyledComponent`: separate props,
overlay defaults, resolve simple then compound variants, and merge
`[base, simple, compound, direct]` in that order. -/
def styledRender (base : Option Obj) (variants : Option Variants)
    (defaultVariants : Option Obj) (compoundVariants : Option (List Obj))
    (props : Obj) : Obj :=
  let restProps := props.filter (fun kv => !(kv.1 == "children"))
  let sep := separateProps (variantKeysOf variants) restProps
  let activeVariantProps := spread2 (orEmpty defaultVariants) sep.1
  let baseVariantStyles := applyBaseVariants variants defaultVariants activeVariantProps
  let compoundVariantStyles := applyCompoundVariants compoundVariants activeVariantProps
  mergeProps [some (orEmpty base), some baseVariantStyles,
    some compoundVariantStyles, some sep.2]

end IndexImpl

/-!
## GuardImpl — src/unnamed/part_000

The variant of index.tsx that understands boolean variants: its
`mergeProps` only routes truthy string classNames through `cn` and only
spreads `style` onto an existing style object, and its `applyBaseVariants`
guards singleton-`true` categories against non-boolean selections.
-/

namespace GuardImpl

/-- part_000 `cn`. -/
def cn (inputs : List JSVal) : String :=
  twMerge (clsx inputs)

/-- One entry of the part_000 `mergeProps` inner loop.  Unlike index.tsx,
the className branch also demands a truthy (non-empty) string and the
style branch demands that the accumulated style is already an object. -/
def mergePairStep (result : Obj) (kv : String × JSVal) : Obj :=
  if kv.1 == "className" && kv.2.isString && kv.2.truthy then
    result.set "className" (.str (cn [result.getD "className", kv.2]))
  else if kv.1 == "style" && kv.2.isObjectType
      && (result.getD "style").isObjectType then
    result.set "style" (.obj (spread2 (result.getD "style").fields kv.2.fields))
  else if !kv.2.isUndef then result.set kv.1 kv.2
  else result

/-- The part_000 `mergeProps` loop body for one props object. -/
def mergePair (result props : Obj) : Obj :=
  props.foldl mergePairStep result

/-- part_000 `mergeProps(...propsList)` (`if (!props) continue`). -/
def mergeProps (propsList : List (Option Obj)) : Obj :=
  (propsList.filterMap id).foldl mergePair []

/-- part_000 `isBooleanVariant`: the option set is exactly the singleton
key `"true"`. -/
def isBooleanVariant (variantDef : VariantDef) : Bool :=
  match variantDef.map Prod.fst with
  | [k] => k == "true"
  | _ => false

/-- `const { className, style, ...conditions } = compound` (part_000). -/
def compoundConditions (compound : Obj) : Obj :=
  compound.filter (fun kv => !(kv.1 == "className") && !(kv.1 == "style"))

/-- The part_000 compound condition loop. -/
def compoundMatches (compound : Obj) (currentProps : Obj) : Bool :=
  (compoundConditions compound).all
    (fun kv => JSVal.strictEq (Obj.getD currentProps kv.1) kv.2)

/-- The part_000 effect-collection loop (`!(key in conditions)`). -/
def compoundEffects (compound : Obj) : Obj :=
  compound.filter (fun kv => !(Obj.has (compoundConditions compound) kv.1))

/-- The part_000 compound loop body for one rule. -/
def compoundStep (currentProps : Obj) (acc : Obj) (compound : Obj) : Obj :=
  if compoundMatches compound currentProps then
    mergeProps [some acc, some (compoundEffects compound)]
  else acc

/-- part_000 `applyCompoundVariants`. -/
def applyCompoundVariants (compoundVariants : Option (List Obj))
    (currentProps : Obj) : Obj :=
  match compoundVariants with
  | none => []
  | some rules =>
    if rules.length = 0 then []
    else rules.foldl (compoundStep currentProps) []

/-- part_000 `applyBaseVariants`: like index.tsx but with the boolean
guard.  (The source also binds a `defaultValue` from `defaultVariants`
here but never reads it — defaults are already overlaid into
`currentProps` by the caller — so no default fill happens in this
function.) -/
def guardBaseVariantStep (vs : Variants) (currentProps : Obj)
    (variantProps : Obj) (key : String) : Obj :=
  match lookupDef vs key with
  | none => variantProps
  | some variantDef =>
    let isBoolean := isBooleanVariant variantDef
    let propValue0 := Obj.getD currentProps key
    let boolFiltered : Option JSVal :=
      if isBoolean then
        match propValue0 with
        | .bool true => some (.str "true")
        | .bool false => none
        | .undef => none
        | .str s => if s == "true" || s == "false" then none else some (.str s)
        | v => some v
      else some propValue0
    match boolFiltered with
    | none => variantProps
    | some pv =>
      if pv.isUndef then variantProps
      else
        match lookupStyles variantDef pv.toStr with
        | some variantStyles =>
          mergeProps [some variantProps, some variantStyles]
        | none => variantProps

/-- part_000 `applyBaseVariants`. -/
def applyBaseVariants (variants : Option Variants) (currentProps : Obj) : Obj :=
  match variants with
  | none => []
  | some vs =>
    (vs.map Prod.fst).foldl (guardBaseVariantStep vs currentProps) []

/-- part_000 `separateProps`: unlike index.tsx it does NOT skip
`undefined` values — they are distributed like any other value. -/
def separateProps (variantKeys : List String) (allProps : Obj) : Obj × Obj :=
  allProps.foldl (fun acc kv =>
    if variantKeys.contains kv.1 then (acc.1.set kv.1 kv.2, acc.2)
    else (acc.1, acc.2.set kv.1 kv.2)) ([], [])

/-- The render body of the part_000 `StyledComponent`: note the merge
order is `[base, compound, simple, direct]` — compound variants BELOW
simple variants, the opposite relative order from index.tsx. -/
def styledRender (base : Option Obj) (variants : Option Variants)
    (defaultVariants : Option Obj) (compoundVariants : Option (List Obj))
    (props : Obj) : Obj :=
  let restProps := props.filter (fun kv => !(kv.1 == "children"))
  let sep := separateProps (variantKeysOf variants) restProps
  let activeVariantProps := spread2 (orEmpty defaultVariants) sep.1
  let compoundVariantStyles := applyCompoundVariants compoundVariants activeVariantProps
  let baseVariantStyles := applyBaseVariants variants activeVariantProps
  mergeProps [some (orEmpty base), some compoundVariantStyles,
    some baseVariantStyles, some sep.2]

end GuardImpl

/-!
## UtilsImpl — src/helpers/utils.ts

The property-bag-style pipeline: compound rules carry their effect under a
dedicated `props` sub-key, and `mergeFinalProps` collects style/className
contributions of all four sources before merging them once at the end.
-/

namespace UtilsImpl

/-- utils.ts `mergeStyles`: drop falsy entries, return the single
survivor unchanged, otherwise `Object.assign({}, ...validStyles)`,
collapsing an empty merge to `undefined`. -/
def mergeStyles (styles : List JSVal) : Option JSVal :=
  let validStyles := styles.filter JSVal.truthy
  if validStyles.length = 0 then none
  else if validStyles.length = 1 then validStyles.head?
  else
    let merged := validStyles.foldl (fun acc v => Obj.assign acc v.fields) []
    if merged.length > 0 then some (.obj merged) else none

/-- utils.ts `cn`: like index.tsx `cn` but an empty result collapses to
`undefined`. -/
def cn (inputs : List JSVal) : Option String :=
  let result := twMerge (clsx inputs)
  if result.length > 0 then some result else none

/-- utils.ts `checkCompoundVariantConditions`. -/
def checkCompoundVariantConditions (conditions activeVariants : Obj) : Bool :=
  conditions.all (fun kv => JSVal.strictEq kv.2 (Obj.getD activeVariants kv.1))

/-- utils.ts `resolveVariantProps`: iterates the ACTIVE-SELECTION object's
own keys (not the configuration's), assigning rest props and accumulating
style/className iteratively; the merged style/className are attached at
the end when truthy. -/
def resolveVariantStep (cv : Variants) (acc : Obj × JSVal × JSVal)
    (kv : String × JSVal) : Obj × JSVal × JSVal :=
  if !kv.2.isUndef then
    match lookupDef cv kv.1 with
    | none => acc
    | some vd =>
      match lookupStyles vd kv.2.toStr with
      | none => acc
      | some propsForVariant =>
        let style := Obj.getD propsForVariant "style"
        let className := Obj.getD propsForVariant "className"
        let restProps := propsForVariant.filter
          (fun e => !(e.1 == "style") && !(e.1 == "className"))
        let finalProps := Obj.assign acc.1 restProps
        let curStyle := if style.truthy
          then (mergeStyles [acc.2.1, style]).getD JSVal.undef
          else acc.2.1
        let curClass := if className.truthy
          then (match cn [acc.2.2, className] with
                | some s => JSVal.str s
                | none => JSVal.undef)
          else acc.2.2
        (finalProps, curStyle, curClass)
  else acc

def resolveVariantProps (configVariants : Option Variants)
    (activeVariants : Obj) : Obj :=
  match configVariants with
  | none => []
  | some cv =>
    let st := activeVariants.foldl (resolveVariantStep cv)
      ([], JSVal.undef, JSVal.undef)
    let withStyle :=
      if st.2.1.truthy then Obj.set st.1 "style" st.2.1 else st.1
    if st.2.2.truthy then Obj.set withStyle "className" st.2.2 else withStyle

/-- utils.ts `resolveCompoundVariantProps`: conditions are every key
except `props`; a matching rule's truthy `props` bag is assigned onto the
accumulator. -/
def resolveCompoundStep (activeVariants : Obj) (compoundProps : Obj)
    (compoundItem : Obj) : Obj :=
  let itemProps := Obj.getD compoundItem "props"
  let conditions := compoundItem.filter (fun kv => !(kv.1 == "props"))
  if checkCompoundVariantConditions conditions activeVariants then
    if itemProps.truthy then Obj.assign compoundProps itemProps.fields
    else compoundProps
  else compoundProps

def resolveCompoundVariantProps (compoundVariantsConfig : Option (List Obj))
    (activeVariants : Obj) : Obj :=
  match compoundVariantsConfig with
  | none => []
  | some rules => rules.foldl (resolveCompoundStep activeVariants) []

/-- utils.ts `mergeFinalProps`: split `ref` off the direct props, sweep
the four sources (base, variants, compounds, other direct) collecting
style/className and last-write-wins-assigning everything else (with NO
skip of `undefined` values), then attach the merged style, className and
ref when truthy. -/
def collectStep (st : Obj × List JSVal × List JSVal) (kv : String × JSVal) :
    Obj × List JSVal × List JSVal :=
  if kv.1 == "style" then (st.1, st.2.1 ++ [kv.2], st.2.2)
  else if kv.1 == "className" then (st.1, st.2.1, st.2.2 ++ [kv.2])
  else if kv.1 == "ref" then st
  else (Obj.set st.1 kv.1 kv.2, st.2.1, st.2.2)

def collectSource (st : Obj × List JSVal × List JSVal) (so : Option Obj) :
    Obj × List JSVal × List JSVal :=
  match so with
  | none => st
  | some source => source.foldl collectStep st

def mergeFinalProps (base : Option Obj) (variants compounds direct : Obj) : Obj :=
  let ref := Obj.getD direct "ref"
  let otherDirectProps := direct.filter (fun kv => !(kv.1 == "ref"))
  let sources : List (Option Obj) :=
    [base, some variants, some compounds, some otherDirectProps]
  let collected := sources.foldl collectSource
    (([], [], []) : Obj × List JSVal × List JSVal)
  let mergedStyle := (mergeStyles collected.2.1).getD JSVal.undef
  let mergedClassName : JSVal :=
    match cn collected.2.2 with
    | some s => JSVal.str s
    | none => JSVal.undef
  let s1 := if mergedStyle.truthy
    then Obj.set collected.1 "style" mergedStyle else collected.1
  let s2 := if mergedClassName.truthy
    then Obj.set s1 "className" mergedClassName else s1
  if ref.truthy then Obj.set s2 "ref" ref else s2

end UtilsImpl

/-!
## StyledV1 — src/src/useStyled.tsx (first version)

Only the prop separation and defaultVariants fill are needed by the
claims; resolution and merging are delegated to UtilsImpl.
-/

namespace StyledV1

/-- The separation loop of the first useStyled in src/src/useStyled.tsx:
a prop enters the active variants iff it names a variant key AND its
value is defined; everything else (children, ref, and even variant keys
carrying `undefined`) goes to the direct props. -/
def v1SeparateStep (variantKeys : List String) (acc : Obj × Obj)
    (kv : String × JSVal) : Obj × Obj :=
  if variantKeys.contains kv.1 && !kv.2.isUndef then
    (Obj.set acc.1 kv.1 kv.2, acc.2)
  else (acc.1, Obj.set acc.2 kv.1 kv.2)

def separateProps (variantKeys : List String) (incomingProps : Obj) : Obj × Obj :=
  incomingProps.foldl (v1SeparateStep variantKeys) ([], [])

/-- The defaultVariants fill: inject each default only where the active
entry is still `undefined` (absent). -/
def fillDefaults (defaultVariants : Option Obj) (active : Obj) : Obj :=
  match defaultVariants with
  | none => active
  | some dv => dv.foldl (fun acc kv =>
      if (Obj.getD acc kv.1).isUndef then Obj.set acc kv.1 kv.2 else acc) active

/-- The active selection the first useStyled hands to the resolvers. -/
def buildActiveVariants (variantKeys : List String) (defaultVariants : Option Obj)
    (incomingProps : Obj) : Obj :=
  fillDefaults defaultVariants (separateProps variantKeys incomingProps).1

end StyledV1

/-!
## SlotImpl — src/src/useSlot.tsx

A component is modelled by its observable static surface: the `Decorated`
symbol marker and its string-keyed static properties.  Mutation is made
explicit: `useSlot` returns the post-call state of the input component
object, the returned component, and whether the two are the same object.
-/

namespace SlotImpl

/-- The static surface of a (function) component object. -/
structure SlotComp where
  decorated : Bool
  statics : Obj

/-- The clone loop's value copy:
`value && typeof value === 'object' ? { ...value } : value`. -/
def shallowCopyVal (v : JSVal) : JSVal :=
  if v.truthy && v.isObjectType then .obj (Obj.assign [] v.fields) else v

/-- The outcome of one `useSlot` call. -/
structure SlotResult where
  original : SlotComp
  returned : SlotComp
  isSameObject : Bool

/-- src/src/useSlot.tsx `useSlot`: a decorated component is cloned into a
fresh forwardRef wrapper carrying shallow copies of its own static
properties (the `for ... in` + `hasOwnProperty` loop); an undecorated
component is mutated in place.  Either way the new static props are
`Object.assign`ed on and the `Decorated` marker set. -/
def useSlot (component : SlotComp) (staticProps : Obj) : SlotResult :=
  if component.decorated then
    let cloned := component.statics.foldl
      (fun acc kv => Obj.set acc kv.1 (shallowCopyVal kv.2)) []
    { original := component,
      returned := { decorated := true, statics := Obj.assign cloned staticProps },
      isSameObject := false }
  else
    let next : SlotComp :=
      { decorated := true,
        statics := Obj.assign component.statics staticProps }
    { original := next, returned := next, isSameObject := true }

end SlotImpl

/-!
## Merge characterization lemmas

`lastDefSources` / `lastSources` describe the precedence semantics of the
merges: the value a key receives is the last one contributed, later sources
(and within a source, later entries) taking precedence; `lastDefSources`
additionally ignores `undefined` contributions, as index.tsx/part_000
`mergeProps` do.
-/

/-- The last value for `k` contributed by an entry of `o`, where an entry's
contribution is given by `contrib`.  Later entries take precedence. -/
def lastContrib (contrib : String × JSVal → Option JSVal) : Obj → Option JSVal
  | [] => none
  | kv :: t => firstSome (lastContrib contrib t) (contrib kv)

@[simp]
theorem firstSome_none_right {α : Type} (a : Option α) : firstSome a none = a := by
  cases a <;> rfl

theorem getLastDef_eq_lastContrib (o : Obj) (k : String) :
    Obj.getLastDef o k
      = lastContrib (fun kv => if kv.1 == k && !kv.2.isUndef then some kv.2 else none) o := by
  induction o with
  | nil => rfl
  | cons kv t ih => rw [Obj.getLastDef_cons, ih]; rfl

theorem getLast_eq_lastContrib (o : Obj) (k : String) :
    Obj.getLast o k
      = lastContrib (fun kv => if kv.1 == k then some kv.2 else none) o := by
  induction o with
  | nil => rfl
  | cons kv t ih => rw [Obj.getLast_cons, ih]; rfl

/-- Generic fold lemma: if one step of a fold contributes `contrib kv` to
the value observed at key `k` (keeping the accumulator's value otherwise),
then the whole fold observes the last contribution, falling back to the
initial accumulator. -/
theorem foldl_get_of_step (step : Obj → String × JSVal → Obj)
    (contrib : String × JSVal → Option JSVal) (k : String)
    (hstep : ∀ acc kv, Obj.get (step acc kv) k = firstSome (contrib kv) (Obj.get acc k)) :
    ∀ (props acc : Obj),
      Obj.get (props.foldl step acc) k
        = firstSome (lastContrib contrib props) (Obj.get acc k) := by
  intro props
  induction props with
  | nil => intro acc; simp [lastContrib]
  | cons kv t ih =>
    intro acc
    simp only [List.foldl_cons, lastContrib]
    rw [ih, hstep, firstSome_assoc]

/-- The last defined (non-`undefined`) value for `k` among an ordered list
of optional property sources, later sources winning. -/
def lastDefSources (ps : List (Option Obj)) (k : String) : Option JSVal :=
  match ps with
  | [] => none
  | none :: t => lastDefSources t k
  | some o :: t => firstSome (lastDefSources t k) (Obj.getLastDef o k)

/-- The last value (defined or not) for `k` among an ordered list of
optional property sources, later sources winning. -/
def lastSources (ps : List (Option Obj)) (k : String) : Option JSVal :=
  match ps with
  | [] => none
  | none :: t => lastSources t k
  | some o :: t => firstSome (lastSources t k) (Obj.getLast o k)

theorem indexMergePairStep_get (k : String) (h1 : k ≠ "className") (h2 : k ≠ "style")
    (acc : Obj) (kv : String × JSVal) :
    Obj.get (IndexImpl.mergePairStep acc kv) k
      = firstSome (if kv.1 == k && !kv.2.isUndef then some kv.2 else none)
          (Obj.get acc k) := by
  by_cases hu : kv.2.isUndef = true
  · simp [IndexImpl.mergePairStep, hu]
  · have hnu : kv.2.isUndef = false := by simpa using hu
    by_cases hc : (kv.1 == "className" && kv.2.isString) = true
    · have hc1 : (kv.1 == "className") = true := by
        have h := hc
        simp only [Bool.and_eq_true] at h
        exact h.1
      have hne : (kv.1 == k) = false := by
        rw [beq_eq_false_iff_ne, eq_of_beq hc1]
        exact fun he => h1 he.symm
      unfold IndexImpl.mergePairStep
      rw [if_neg hu, if_pos hc, Obj.get_set_ne _ _ _ _ h1]
      simp [hne]
    · by_cases hs : (kv.1 == "style" && kv.2.isObjectType) = true
      · have hs1 : (kv.1 == "style") = true := by
          have h := hs
          simp only [Bool.and_eq_true] at h
          exact h.1
        have hne : (kv.1 == k) = false := by
          rw [beq_eq_false_iff_ne, eq_of_beq hs1]
          exact fun he => h2 he.symm
        unfold IndexImpl.mergePairStep
        rw [if_neg hu, if_neg hc, if_pos hs, Obj.get_set_ne _ _ _ _ h2]
        simp [hne]
      · unfold IndexImpl.mergePairStep
        rw [if_neg hu, if_neg hc, if_neg hs]
        by_cases hk : (kv.1 == k) = true
        · have hke : kv.1 = k := eq_of_beq hk
          subst hke
          simp [Obj.get_set_self, hnu]
        · have hne : k ≠ kv.1 := by
            intro he
            exact hk (by simp [he])
          rw [Obj.get_set_ne _ _ _ _ hne]
          simp [hk]

theorem indexMergePair_get (k : String) (h1 : k ≠ "className") (h2 : k ≠ "style")
    (acc props : Obj) :
    Obj.get (IndexImpl.mergePair acc props) k
      = firstSome (Obj.getLastDef props k) (Obj.get acc k) := by
  rw [getLastDef_eq_lastContrib]
  exact foldl_get_of_step _ _ k (indexMergePairStep_get k h1 h2) props acc

theorem indexMergeProps_get_aux (k : String) (h1 : k ≠ "className") (h2 : k ≠ "style") :
    ∀ (ps : List (Option Obj)) (acc : Obj),
      Obj.get ((ps.filterMap id).foldl IndexImpl.mergePair acc) k
        = firstSome (lastDefSources ps k) (Obj.get acc k) := by
  intro ps
  induction ps with
  | nil => intro acc; simp [lastDefSources]
  | cons so t ih =>
    intro acc
    cases so with
    | none => simpa [lastDefSources] using ih acc
    | some o =>
      simp only [List.filterMap_cons, id_eq, List.foldl_cons, lastDefSources]
      rw [ih, indexMergePair_get k h1 h2, firstSome_assoc]

theorem indexMergeProps_get (k : String) (h1 : k ≠ "className") (h2 : k ≠ "style")
    (ps : List (Option Obj)) :
    Obj.get (IndexImpl.mergeProps ps) k = lastDefSources ps k := by
  have h := indexMergeProps_get_aux k h1 h2 ps []
  simpa [IndexImpl.mergeProps] using h

theorem guardMergePairStep_get (k : String) (h1 : k ≠ "className") (h2 : k ≠ "style")
    (acc : Obj) (kv : String × JSVal) :
    Obj.get (GuardImpl.mergePairStep acc kv) k
      = firstSome (if kv.1 == k && !kv.2.isUndef then some kv.2 else none)
          (Obj.get acc k) := by
  by_cases hc : (kv.1 == "className" && kv.2.isString && kv.2.truthy) = true
  · have hc1 : (kv.1 == "className") = true := by
      have h := hc
      simp only [Bool.and_eq_true] at h
      exact h.1.1
    have hne : (kv.1 == k) = false := by
      rw [beq_eq_false_iff_ne, eq_of_beq hc1]
      exact fun he => h1 he.symm
    unfold GuardImpl.mergePairStep
    rw [if_pos hc, Obj.get_set_ne _ _ _ _ h1]
    simp [hne]
  · by_cases hs : (kv.1 == "style" && kv.2.isObjectType
        && (acc.getD "style").isObjectType) = true
    · have hs1 : (kv.1 == "style") = true := by
        have h := hs
        simp only [Bool.and_eq_true] at h
        exact h.1.1
      have hne : (kv.1 == k) = false := by
        rw [beq_eq_false_iff_ne, eq_of_beq hs1]
        exact fun he => h2 he.symm
      unfold GuardImpl.mergePairStep
      rw [if_neg hc, if_pos hs, Obj.get_set_ne _ _ _ _ h2]
      simp [hne]
    · by_cases hu : kv.2.isUndef = true
      · unfold GuardImpl.mergePairStep
        rw [if_neg hc, if_neg hs, if_neg (by simp [hu])]
        simp [hu]
      · have hnu : kv.2.isUndef = false := by simpa using hu
        unfold GuardImpl.mergePairStep
        rw [if_neg hc, if_neg hs, if_pos (by simp [hnu])]
        by_cases hk : (kv.1 == k) = true
        · have hke : kv.1 = k := eq_of_beq hk
          subst hke
          simp [Obj.get_set_self, hnu]
        · have hne : k ≠ kv.1 := by
            intro he
            exact hk (by simp [he])
          rw [Obj.get_set_ne _ _ _ _ hne]
          simp [hk]

theorem guardMergePair_get (k : String) (h1 : k ≠ "className") (h2 : k ≠ "style")
    (acc props : Obj) :
    Obj.get (GuardImpl.mergePair acc props) k
      = firstSome (Obj.getLastDef props k) (Obj.get acc k) := by
  rw [getLastDef_eq_lastContrib]
  exact foldl_get_of_step _ _ k (guardMergePairStep_get k h1 h2) props acc

theorem guardMergeProps_get_aux (k : String) (h1 : k ≠ "className") (h2 : k ≠ "style") :
    ∀ (ps : List (Option Obj)) (acc : Obj),
      Obj.get ((ps.filterMap id).foldl GuardImpl.mergePair acc) k
        = firstSome (lastDefSources ps k) (Obj.get acc k) := by
  intro ps
  induction ps with
  | nil => intro acc; simp [lastDefSources]
  | cons so t ih =>
    intro acc
    cases so with
    | none => simpa [lastDefSources] using ih acc
    | some o =>
      simp only [List.filterMap_cons, id_eq, List.foldl_cons, lastDefSources]
      rw [ih, guardMergePair_get k h1 h2, firstSome_assoc]

theorem guardMergeProps_get (k : String) (h1 : k ≠ "className") (h2 : k ≠ "style")
    (ps : List (Option Obj)) :
    Obj.get (GuardImpl.mergeProps ps) k = lastDefSources ps k := by
  have h := guardMergeProps_get_aux k h1 h2 ps []
  simpa [GuardImpl.mergeProps] using h

theorem spread2_get (a b : Obj) (k : String) :
    Obj.get (spread2 a b) k = firstSome (Obj.getLast b k) (Obj.getLast a k) := by
  unfold spread2
  rw [Obj.get_assign, Obj.get_assign]
  simp

theorem getLast_filter (o : Obj) (p : String × JSVal → Bool) (k : String)
    (h : ∀ kv : String × JSVal, kv.1 = k → p kv = true) :
    Obj.getLast (o.filter p) k = Obj.getLast o k := by
  induction o with
  | nil => rfl
  | cons kv t ih =>
    by_cases hp : p kv = true
    · rw [List.filter_cons_of_pos hp, Obj.getLast_cons, Obj.getLast_cons, ih]
    · have hne : (kv.1 == k) = false := by
        rw [beq_eq_false_iff_ne]
        intro he
        exact hp (h kv he)
      rw [List.filter_cons_of_neg (by simpa using hp), Obj.getLast_cons, ih, hne]
      simp

theorem getLastDef_filter (o : Obj) (p : String × JSVal → Bool) (k : String)
    (h : ∀ kv : String × JSVal, kv.1 = k → p kv = true) :
    Obj.getLastDef (o.filter p) k = Obj.getLastDef o k := by
  induction o with
  | nil => rfl
  | cons kv t ih =>
    by_cases hp : p kv = true
    · rw [List.filter_cons_of_pos hp, Obj.getLastDef_cons, Obj.getLastDef_cons, ih]
    · have hne : (kv.1 == k) = false := by
        rw [beq_eq_false_iff_ne]
        intro he
        exact hp (h kv he)
      rw [List.filter_cons_of_neg (by simpa using hp), Obj.getLastDef_cons, ih, hne]
      simp

theorem get_ite_set_ne (b : Bool) (o : Obj) (k' k : String) (v : JSVal) (h : k ≠ k') :
    Obj.get (if b then Obj.set o k' v else o) k = Obj.get o k := by
  cases b
  · simp
  · simp only [if_true]
    exact Obj.get_set_ne o k' k v h

theorem utilsCollect_fst_get (k : String) (h1 : k ≠ "style") (h2 : k ≠ "className")
    (h3 : k ≠ "ref") :
    ∀ (source : Obj) (st : Obj × List JSVal × List JSVal),
      Obj.get (source.foldl UtilsImpl.collectStep st).1 k
        = firstSome (Obj.getLast source k) (Obj.get st.1 k) := by
  intro source
  induction source with
  | nil => intro st; simp [Obj.getLast]
  | cons kv t ih =>
    intro st
    simp only [List.foldl_cons]
    rw [ih, Obj.getLast_cons, firstSome_assoc]
    congr 1
    unfold UtilsImpl.collectStep
    by_cases hsb : (kv.1 == "style") = true
    · have hne : (kv.1 == k) = false := by
        rw [beq_eq_false_iff_ne, eq_of_beq hsb]
        exact fun he => h1 he.symm
      rw [if_pos hsb]
      simp [hne]
    · by_cases hcb : (kv.1 == "className") = true
      · have hne : (kv.1 == k) = false := by
          rw [beq_eq_false_iff_ne, eq_of_beq hcb]
          exact fun he => h2 he.symm
        rw [if_neg hsb, if_pos hcb]
        simp [hne]
      · by_cases hrb : (kv.1 == "ref") = true
        · have hne : (kv.1 == k) = false := by
            rw [beq_eq_false_iff_ne, eq_of_beq hrb]
            exact fun he => h3 he.symm
          rw [if_neg hsb, if_neg hcb, if_pos hrb]
          simp [hne]
        · rw [if_neg hsb, if_neg hcb, if_neg hrb]
          by_cases hk : (kv.1 == k) = true
          · have hke : kv.1 = k := eq_of_beq hk
            subst hke
            simp [Obj.get_set_self]
          · have hne : k ≠ kv.1 := fun he => hk (by simp [he])
            show Obj.get (Obj.set st.1 kv.1 kv.2) k = _
            rw [Obj.get_set_ne _ _ _ _ hne]
            simp [hk]

theorem utilsCollect_fst_get_className :
    ∀ (source : Obj) (st : Obj × List JSVal × List JSVal),
      Obj.get (source.foldl UtilsImpl.collectStep st).1 "className"
        = Obj.get st.1 "className" := by
  intro source
  induction source with
  | nil => intro st; rfl
  | cons kv t ih =>
    intro st
    simp only [List.foldl_cons]
    rw [ih]
    unfold UtilsImpl.collectStep
    by_cases hsb : (kv.1 == "style") = true
    · rw [if_pos hsb]
    · by_cases hcb : (kv.1 == "className") = true
      · rw [if_neg hsb, if_pos hcb]
      · by_cases hrb : (kv.1 == "ref") = true
        · rw [if_neg hsb, if_neg hcb, if_pos hrb]
        · rw [if_neg hsb, if_neg hcb, if_neg hrb]
          show Obj.get (Obj.set st.1 kv.1 kv.2) "className" = _
          exact Obj.get_set_ne _ _ _ _ (fun he => hcb (by simp [he.symm]))

theorem utilsCollect_classes :
    ∀ (source : Obj) (st : Obj × List JSVal × List JSVal),
      (source.foldl UtilsImpl.collectStep st).2.2
        = st.2.2 ++ source.filterMap
            (fun kv => if kv.1 == "className" then some kv.2 else none) := by
  intro source
  induction source with
  | nil => intro st; simp
  | cons kv t ih =>
    intro st
    simp only [List.foldl_cons, List.filterMap_cons]
    rw [ih]
    unfold UtilsImpl.collectStep
    by_cases hsb : (kv.1 == "style") = true
    · have hcb : (kv.1 == "className") = false := by
        rw [beq_eq_false_iff_ne, eq_of_beq hsb]
        decide
      rw [if_pos hsb, hcb]
      simp
    · by_cases hcb : (kv.1 == "className") = true
      · rw [if_neg hsb, if_pos hcb, hcb]
        simp
      · by_cases hrb : (kv.1 == "ref") = true
        · rw [if_neg hsb, if_neg hcb, if_pos hrb,
            show (kv.1 == "className") = false from by simpa using hcb]
          simp
        · rw [if_neg hsb, if_neg hcb, if_neg hrb,
            show (kv.1 == "className") = false from by simpa using hcb]
          simp

theorem clsxTokens_falsy (v : JSVal) (h : v.truthy = false) : clsxTokens v = [] := by
  cases v with
  | undef => rfl
  | null => rfl
  | bool b =>
    cases b with
    | false => rfl
    | true => simp [JSVal.truthy] at h
  | str s =>
    have hs : s = "" := by
      unfold JSVal.truthy at h
      simpa using h
    simp [clsxTokens, hs]
  | num n =>
    have hn : n = 0 := by
      unfold JSVal.truthy at h
      simpa using h
    simp [clsxTokens, hn]
  | obj fs => simp [JSVal.truthy] at h

theorem clsx_falsy (l : List JSVal) (h : ∀ x ∈ l, x.truthy = false) : clsx l = "" := by
  unfold clsx
  have hfl : (l.map clsxTokens).flatten = ([] : List String) := by
    induction l with
    | nil => rfl
    | cons x t ih =>
      simp only [List.map_cons, List.flatten_cons]
      rw [clsxTokens_falsy x (h x (by simp)), ih (fun y hy => h y (by simp [hy]))]
      rfl
  rw [hfl]
  rfl

theorem utilsCn_falsy (l : List JSVal) (h : ∀ x ∈ l, x.truthy = false) :
    UtilsImpl.cn l = none := by
  unfold UtilsImpl.cn twMerge
  rw [clsx_falsy l h]
  rfl

theorem utilsMergeFinalProps_get (k : String) (h1 : k ≠ "style") (h2 : k ≠ "className")
    (h3 : k ≠ "ref") (base : Option Obj) (v c d : Obj) :
    Obj.get (UtilsImpl.mergeFinalProps base v c d) k
      = lastSources [base, some v, some c, some d] k := by
  have hfil : Obj.getLast (d.filter (fun kv => !(kv.1 == "ref"))) k = Obj.getLast d k := by
    apply getLast_filter
    intro kv hk
    rw [hk]
    have : (k == "ref") = false := by
      rw [beq_eq_false_iff_ne]
      exact h3
    simp [this]
  unfold UtilsImpl.mergeFinalProps
  simp only [List.foldl_cons, List.foldl_nil, UtilsImpl.collectSource]
  rw [get_ite_set_ne _ _ _ _ _ h3, get_ite_set_ne _ _ _ _ _ h2,
    get_ite_set_ne _ _ _ _ _ h1]
  cases base with
  | none =>
    rw [utilsCollect_fst_get k h1 h2 h3, utilsCollect_fst_get k h1 h2 h3,
      utilsCollect_fst_get k h1 h2 h3, hfil]
    simp [lastSources, firstSome_assoc]
  | some b =>
    rw [utilsCollect_fst_get k h1 h2 h3, utilsCollect_fst_get k h1 h2 h3,
      utilsCollect_fst_get k h1 h2 h3, utilsCollect_fst_get k h1 h2 h3, hfil]
    simp [lastSources, firstSome_assoc]

theorem mem_classNameContribs (source : Obj) (x : JSVal)
    (hx : x ∈ source.filterMap
      (fun kv => if kv.1 == "className" then some kv.2 else none)) :
    ∃ kv ∈ source, kv.1 = "className" ∧ kv.2 = x := by
  rw [List.mem_filterMap] at hx
  obtain ⟨kv, hmem, hkv⟩ := hx
  by_cases hb : (kv.1 == "className") = true
  · rw [if_pos hb] at hkv
    exact ⟨kv, hmem, eq_of_beq hb, Option.some.inj hkv⟩
  · rw [if_neg hb] at hkv
    cases hkv

theorem utilsMergeFinal_className_none (base : Option Obj) (v c d : Obj)
    (h : ∀ o ∈ [orEmpty base, v, c, d], ∀ kv ∈ o, kv.1 = "className" →
      kv.2.truthy = false) :
    Obj.get (UtilsImpl.mergeFinalProps base v c d) "className" = none := by
  have hv := h v (by simp)
  have hc := h c (by simp)
  have hd := h d (by simp)
  have hdr : ∀ kv ∈ d.filter (fun kv => !(kv.1 == "ref")), kv.1 = "className" →
      kv.2.truthy = false := by
    intro kv hmem
    exact hd kv (List.mem_of_mem_filter hmem)
  have hclasses : ∀ (source : Obj),
      (∀ kv ∈ source, kv.1 = "className" → kv.2.truthy = false) →
      ∀ x ∈ source.filterMap
        (fun kv => if kv.1 == "className" then some kv.2 else none),
        x.truthy = false := by
    intro source hsrc x hx
    obtain ⟨kv, hmem, hk, hv'⟩ := mem_classNameContribs source x hx
    rw [← hv']
    exact hsrc kv hmem hk
  unfold UtilsImpl.mergeFinalProps
  simp only [List.foldl_cons, List.foldl_nil, UtilsImpl.collectSource]
  rw [get_ite_set_ne _ _ _ _ _ (by decide : "className" ≠ "ref")]
  cases base with
  | none =>
    rw [utilsCollect_classes, utilsCollect_classes, utilsCollect_classes]
    have hcn : UtilsImpl.cn ((([], [], []) :
        Obj × List JSVal × List JSVal).2.2
        ++ v.filterMap (fun kv => if kv.1 == "className" then some kv.2 else none)
        ++ c.filterMap (fun kv => if kv.1 == "className" then some kv.2 else none)
        ++ (d.filter (fun kv => !(kv.1 == "ref"))).filterMap
            (fun kv => if kv.1 == "className" then some kv.2 else none)) = none := by
      apply utilsCn_falsy
      intro x hx
      simp only [List.nil_append, List.mem_append] at hx
      rcases hx with (hx | hx) | hx
      · exact hclasses v hv x hx
      · exact hclasses c hc x hx
      · exact hclasses _ hdr x hx
    rw [hcn]
    show Obj.get (if JSVal.truthy JSVal.undef = true then _ else _) "className" = none
    rw [if_neg (by simp [JSVal.truthy])]
    rw [get_ite_set_ne _ _ _ _ _ (by decide : "className" ≠ "style")]
    rw [utilsCollect_fst_get_className, utilsCollect_fst_get_className,
      utilsCollect_fst_get_className]
    rfl
  | some b =>
    have hb := h b (by simp [orEmpty])
    rw [utilsCollect_classes, utilsCollect_classes, utilsCollect_classes,
      utilsCollect_classes]
    have hcn : UtilsImpl.cn ((([], [], []) :
        Obj × List JSVal × List JSVal).2.2
        ++ b.filterMap (fun kv => if kv.1 == "className" then some kv.2 else none)
        ++ v.filterMap (fun kv => if kv.1 == "className" then some kv.2 else none)
        ++ c.filterMap (fun kv => if kv.1 == "className" then some kv.2 else none)
        ++ (d.filter (fun kv => !(kv.1 == "ref"))).filterMap
            (fun kv => if kv.1 == "className" then some kv.2 else none)) = none := by
      apply utilsCn_falsy
      intro x hx
      simp only [List.nil_append, List.mem_append] at hx
      rcases hx with ((hx | hx) | hx) | hx
      · exact hclasses b hb x hx
      · exact hclasses v hv x hx
      · exact hclasses c hc x hx
      · exact hclasses _ hdr x hx
    rw [hcn]
    show Obj.get (if JSVal.truthy JSVal.undef = true then _ else _) "className" = none
    rw [if_neg (by simp [JSVal.truthy])]
    rw [get_ite_set_ne _ _ _ _ _ (by decide : "className" ≠ "style")]
    rw [utilsCollect_fst_get_className, utilsCollect_fst_get_className,
      utilsCollect_fst_get_className, utilsCollect_fst_get_className]
    rfl

theorem has_iff_mem_keys (o : Obj) (k : String) :
    Obj.has o k = true ↔ k ∈ o.map Prod.fst := by
  induction o with
  | nil => simp
  | cons kv t ih =>
    simp only [Obj.has_cons, Bool.or_eq_true, List.map_cons, List.mem_cons, ih]
    constructor
    · rintro (h | h)
      · exact Or.inl (eq_of_beq h).symm
      · exact Or.inr h
    · rintro (h | h)
      · exact Or.inl (by simp [h])
      · exact Or.inr h

theorem keys_set (o : Obj) (k : String) (v : JSVal) :
    (Obj.set o k v).map Prod.fst
      = if Obj.has o k then o.map Prod.fst else o.map Prod.fst ++ [k] := by
  induction o with
  | nil => simp [Obj.set]
  | cons kv t ih =>
    by_cases hk : (kv.1 == k) = true
    · simp [Obj.set, hk, eq_of_beq hk]
    · simp only [Obj.set, hk, Bool.false_eq_true, not_false_eq_true, if_neg,
        List.map_cons, ih, Obj.has_cons]
      by_cases ht : Obj.has t k = true <;> simp [ht, hk]

theorem keys_set_nodup (o : Obj) (k : String) (v : JSVal)
    (h : (o.map Prod.fst).Nodup) : ((Obj.set o k v).map Prod.fst).Nodup := by
  rw [keys_set]
  by_cases hh : Obj.has o k = true
  · simpa [hh] using h
  · have hnm : k ∉ o.map Prod.fst := fun hm => hh ((has_iff_mem_keys o k).mpr hm)
    simp only [hh, Bool.false_eq_true, not_false_eq_true, if_neg]
    rw [List.nodup_append]
    exact ⟨h, List.nodup_singleton k, by simpa using hnm⟩

theorem getLast_none_of_not_mem (o : Obj) (k : String)
    (h : k ∉ o.map Prod.fst) : Obj.getLast o k = none := by
  induction o with
  | nil => rfl
  | cons kv t ih =>
    simp only [List.map_cons, List.mem_cons, not_or] at h
    rw [Obj.getLast_cons, ih h.2,
      if_neg (by simp only [beq_iff_eq]; exact fun he => h.1 he.symm)]
    rfl

theorem getLast_eq_get_of_nodup (o : Obj) (k : String)
    (h : (o.map Prod.fst).Nodup) : Obj.getLast o k = Obj.get o k := by
  induction o with
  | nil => rfl
  | cons kv t ih =>
    rw [List.map_cons] at h
    have hnd := List.nodup_cons.mp h
    rw [Obj.getLast_cons, Obj.get_cons]
    by_cases hk : (kv.1 == k) = true
    · have : Obj.getLast t k = none :=
        getLast_none_of_not_mem t k (by rw [← eq_of_beq hk]; exact hnd.1)
      simp [hk, this]
    · simp [hk, ih hnd.2]

theorem firstSome_map {α β : Type} (f : α → β) (a b : Option α) :
    (firstSome a b).map f = firstSome (a.map f) (b.map f) := by
  cases a <;> rfl

theorem indexSeparate_fst_get (vks : List String) (k : String) :
    ∀ (props : Obj) (st : Obj × Obj),
      Obj.get (props.foldl (IndexImpl.separateStep vks) st).1 k
        = if vks.contains k then
            firstSome (Obj.getLastDef props k) (Obj.get st.1 k)
          else Obj.get st.1 k := by
  intro props
  induction props with
  | nil =>
    intro st
    by_cases hc : vks.contains k <;> simp [hc, Obj.getLastDef]
  | cons kv t ih =>
    intro st
    simp only [List.foldl_cons]
    rw [ih]
    by_cases hc : vks.contains k = true
    · rw [if_pos hc, if_pos hc, Obj.getLastDef_cons, firstSome_assoc]
      congr 1
      unfold IndexImpl.separateStep
      by_cases hu : kv.2.isUndef = true
      · rw [if_pos hu]
        simp [hu]
      · have hnu : kv.2.isUndef = false := by simpa using hu
        rw [if_neg hu]
        by_cases hk : (kv.1 == k) = true
        · have hke := eq_of_beq hk
          rw [if_pos (by rw [hke]; exact hc)]
          show Obj.get (Obj.set st.1 kv.1 kv.2) k = _
          rw [hke, Obj.get_set_self]
          simp [hk, hnu]
        · by_cases hck : vks.contains kv.1 = true
          · rw [if_pos hck]
            show Obj.get (Obj.set st.1 kv.1 kv.2) k = _
            rw [Obj.get_set_ne _ _ _ _ (fun he => hk (by simp [he]))]
            simp [hk]
          · rw [if_neg hck]
            simp [hk]
    · rw [if_neg hc, if_neg hc]
      unfold IndexImpl.separateStep
      by_cases hu : kv.2.isUndef = true
      · rw [if_pos hu]
      · rw [if_neg hu]
        by_cases hck : vks.contains kv.1 = true
        · have hne : k ≠ kv.1 := by
            intro he
            rw [← he] at hck
            exact hc hck
          rw [if_pos hck]
          exact Obj.get_set_ne _ _ _ _ hne
        · rw [if_neg hck]

theorem indexSeparate_fst_nodup (vks : List String) :
    ∀ (props : Obj) (st : Obj × Obj), (st.1.map Prod.fst).Nodup →
      ((props.foldl (IndexImpl.separateStep vks) st).1.map Prod.fst).Nodup := by
  intro props
  induction props with
  | nil => intro st h; exact h
  | cons kv t ih =>
    intro st h
    simp only [List.foldl_cons]
    apply ih
    unfold IndexImpl.separateStep
    by_cases hu : kv.2.isUndef = true
    · rw [if_pos hu]; exact h
    · rw [if_neg hu]
      by_cases hck : vks.contains kv.1 = true
      · rw [if_pos hck]
        exact keys_set_nodup _ _ _ h
      · rw [if_neg hck]
        exact h

theorem indexActiveSelection_get (variants : Option Variants) (dv : Option Obj)
    (props : Obj) (k : String) (hk : (variantKeysOf variants).contains k = true)
    (hch : k ≠ "children") :
    Obj.get (IndexImpl.activeSelection variants dv props) k
      = firstSome (Obj.getLastDef props k) (Obj.getLast (orEmpty dv) k) := by
  unfold IndexImpl.activeSelection IndexImpl.separateProps
  rw [spread2_get,
    getLast_eq_get_of_nodup _ _ (indexSeparate_fst_nodup _ _ _ (by simp)),
    indexSeparate_fst_get, if_pos hk]
  have hfil : Obj.getLastDef (props.filter (fun kv => !(kv.1 == "children"))) k
      = Obj.getLastDef props k := by
    apply getLastDef_filter
    intro kv hkv
    rw [hkv]
    have : (k == "children") = false := by
      rw [beq_eq_false_iff_ne]
      exact hch
    simp [this]
  rw [hfil]
  simp

theorem getLastDef_not_undef (o : Obj) (k : String) :
    ∀ (v : JSVal), Obj.getLastDef o k = some v → v.isUndef = false := by
  induction o with
  | nil => intro v h; cases h
  | cons kv t ih =>
    intro v h
    rw [Obj.getLastDef_cons] at h
    cases hgl : Obj.getLastDef t k with
    | some w =>
      rw [hgl] at h
      simp only [firstSome_some, Option.some.injEq] at h
      rw [← h]
      exact ih w hgl
    | none =>
      rw [hgl, firstSome_none] at h
      by_cases hc : (kv.1 == k && !kv.2.isUndef) = true
      · rw [if_pos hc] at h
        have h2 : (!kv.2.isUndef) = true := by
          simp only [Bool.and_eq_true] at hc
          exact hc.2
        rw [← Option.some.inj h]
        simpa using h2
      · rw [if_neg hc] at h
        cases h

theorem v1Separate_fst_get (vks : List String) (k : String) :
    ∀ (props : Obj) (st : Obj × Obj),
      Obj.get (props.foldl (StyledV1.v1SeparateStep vks) st).1 k
        = if vks.contains k then
            firstSome (Obj.getLastDef props k) (Obj.get st.1 k)
          else Obj.get st.1 k := by
  intro props
  induction props with
  | nil =>
    intro st
    by_cases hc : vks.contains k <;> simp [hc, Obj.getLastDef]
  | cons kv t ih =>
    intro st
    simp only [List.foldl_cons]
    rw [ih]
    by_cases hc : vks.contains k = true
    · rw [if_pos hc, if_pos hc, Obj.getLastDef_cons, firstSome_assoc]
      congr 1
      unfold StyledV1.v1SeparateStep
      by_cases hb : (vks.contains kv.1 && !kv.2.isUndef) = true
      · have hb' := hb
        simp only [Bool.and_eq_true] at hb'
        rw [if_pos hb]
        by_cases hk : (kv.1 == k) = true
        · have hke := eq_of_beq hk
          show Obj.get (Obj.set st.1 kv.1 kv.2) k = _
          rw [hke, Obj.get_set_self]
          simp [hk, hb'.2]
        · show Obj.get (Obj.set st.1 kv.1 kv.2) k = _
          rw [Obj.get_set_ne _ _ _ _ (fun he => hk (by simp [he]))]
          simp [hk]
      · rw [if_neg hb]
        by_cases hk : (kv.1 == k) = true
        · have hke := eq_of_beq hk
          have : (kv.1 == k && !kv.2.isUndef) = false := by
            rcases Bool.eq_false_or_eq_true (kv.2.isUndef) with hu | hu
            · simp [hu]
            · exfalso
              apply hb
              rw [Bool.and_eq_true]
              exact ⟨by rw [hke]; exact hc, by simp [hu]⟩
          simp [this]
        · simp [hk]
    · rw [if_neg hc, if_neg hc]
      unfold StyledV1.v1SeparateStep
      by_cases hb : (vks.contains kv.1 && !kv.2.isUndef) = true
      · have hb' := hb
        simp only [Bool.and_eq_true] at hb'
        have hne : k ≠ kv.1 := by
          intro he
          rw [← he] at hb'
          exact hc hb'.1
        rw [if_pos hb]
        exact Obj.get_set_ne _ _ _ _ hne
      · rw [if_neg hb]

theorem v1Separate_fst_nodup (vks : List String) :
    ∀ (props : Obj) (st : Obj × Obj), (st.1.map Prod.fst).Nodup →
      ((props.foldl (StyledV1.v1SeparateStep vks) st).1.map Prod.fst).Nodup := by
  intro props
  induction props with
  | nil => intro st h; exact h
  | cons kv t ih =>
    intro st h
    simp only [List.foldl_cons]
    apply ih
    unfold StyledV1.v1SeparateStep
    by_cases hb : (vks.contains kv.1 && !kv.2.isUndef) = true
    · rw [if_pos hb]
      exact keys_set_nodup _ _ _ h
    · rw [if_neg hb]
      exact h

theorem fillFold_get_not_mem (dv : Obj) (k : String) (h : k ∉ dv.map Prod.fst) :
    ∀ (active : Obj),
      Obj.get (dv.foldl (fun acc kv =>
        if (Obj.getD acc kv.1).isUndef then Obj.set acc kv.1 kv.2 else acc) active) k
        = Obj.get active k := by
  induction dv with
  | nil => intro active; rfl
  | cons kv t ih =>
    intro active
    simp only [List.map_cons, List.mem_cons, not_or] at h
    simp only [List.foldl_cons]
    rw [ih h.2]
    by_cases hu : (Obj.getD active kv.1).isUndef = true
    · rw [if_pos hu, Obj.get_set_ne _ _ _ _ h.1]
    · rw [if_neg hu]

theorem v1FillDefaults_get (k : String) :
    ∀ (dv active : Obj), (dv.map Prod.fst).Nodup →
      (∀ v, Obj.get active k = some v → v.isUndef = false) →
      Obj.get (StyledV1.fillDefaults (some dv) active) k
        = firstSome (Obj.get active k) (Obj.get dv k) := by
  intro dv
  induction dv with
  | nil =>
    intro active _ _
    show Obj.get active k = _
    cases Obj.get active k <;> rfl
  | cons kv t ih =>
    intro active hnd hactive
    rw [List.map_cons] at hnd
    have hnd' := List.nodup_cons.mp hnd
    show Obj.get (t.foldl _ (if (Obj.getD active kv.1).isUndef
      then Obj.set active kv.1 kv.2 else active)) k = _
    by_cases hk : (kv.1 == k) = true
    · have hke := eq_of_beq hk
      subst hke
      have hnm : kv.1 ∉ t.map Prod.fst := hnd'.1
      cases hga : Obj.get active kv.1 with
      | some v =>
        have hv := hactive v hga
        have hdef : (Obj.getD active kv.1).isUndef = false := by
          unfold Obj.getD
          rw [hga]
          exact hv
        rw [if_neg (by simp [hdef]), fillFold_get_not_mem t kv.1 hnm, hga,
          Obj.get_cons, if_pos (by simp)]
        rfl
      | none =>
        have hdef : (Obj.getD active kv.1).isUndef = true := by
          unfold Obj.getD
          rw [hga]
          rfl
        rw [if_pos hdef, fillFold_get_not_mem t kv.1 hnm, Obj.get_set_self,
          Obj.get_cons, if_pos (by simp)]
        rfl
    · rw [Obj.get_cons, if_neg (by simp [hk] : ¬(kv.1 == k) = true)]
      by_cases hdef : (Obj.getD active kv.1).isUndef = true
      · rw [if_pos hdef]
        have hget : Obj.get (Obj.set active kv.1 kv.2) k = Obj.get active k :=
          Obj.get_set_ne _ _ _ _ (fun he => hk (by simp [he]))
        show Obj.get (StyledV1.fillDefaults (some t) (Obj.set active kv.1 kv.2)) k = _
        rw [ih (Obj.set active kv.1 kv.2) hnd'.2 (by rw [hget]; exact hactive), hget]
      · rw [if_neg hdef]
        show Obj.get (StyledV1.fillDefaults (some t) active) k = _
        exact ih active hnd'.2 hactive

theorem v1BuildActive_get (vks : List String) (dv : Option Obj) (props : Obj)
    (k : String) (hk : vks.contains k = true)
    (hnd : dv = none ∨ ∃ d, dv = some d ∧ (d.map Prod.fst).Nodup) :
    Obj.get (StyledV1.buildActiveVariants vks dv props) k
      = firstSome (Obj.getLastDef props k) (Obj.get (orEmpty dv) k) := by
  have hsep : Obj.get (StyledV1.separateProps vks props).1 k
      = Obj.getLastDef props k := by
    unfold StyledV1.separateProps
    rw [v1Separate_fst_get, if_pos hk]
    simp
  have hval : ∀ v, Obj.get (StyledV1.separateProps vks props).1 k = some v →
      v.isUndef = false := by
    intro v hv
    rw [hsep] at hv
    exact getLastDef_not_undef props k v hv
  unfold StyledV1.buildActiveVariants
  rcases hnd with h | ⟨d, hd, hdnd⟩
  · subst h
    show Obj.get (StyledV1.separateProps vks props).1 k = _
    rw [hsep]
    simp [orEmpty, firstSome_none_right]
  · subst hd
    rw [v1FillDefaults_get k d _ hdnd hval, hsep]
    rfl

theorem foldl_filter_eq {α β : Type} (p : α → Bool) (f : β → α → β) :
    ∀ (l : List α) (init : β),
      (l.filter p).foldl f init
        = l.foldl (fun acc x => if p x then f acc x else acc) init := by
  intro l
  induction l with
  | nil => intro init; rfl
  | cons x t ih =>
    intro init
    by_cases hp : p x = true
    · rw [List.filter_cons_of_pos hp]
      simp only [List.foldl_cons, hp, if_pos]
      exact ih (f init x)
    · rw [List.filter_cons_of_neg (by simpa using hp)]
      simp only [List.foldl_cons, hp, Bool.false_eq_true, not_false_eq_true,
        if_neg]
      exact ih init

theorem indexBaseVariantStep_ext (vs : Variants) (dv : Option Obj) (m1 m2 : Obj)
    (h : ∀ k, Obj.get m1 k = Obj.get m2 k) :
    IndexImpl.baseVariantStep vs dv m1 = IndexImpl.baseVariantStep vs dv m2 := by
  funext acc key
  unfold IndexImpl.baseVariantStep
  rw [show Obj.getD m1 key = Obj.getD m2 key from by unfold Obj.getD; rw [h]]

theorem indexApplyBaseVariants_ext (v : Option Variants) (dv : Option Obj)
    (m1 m2 : Obj) (h : ∀ k, Obj.get m1 k = Obj.get m2 k) :
    IndexImpl.applyBaseVariants v dv m1 = IndexImpl.applyBaseVariants v dv m2 := by
  cases v with
  | none => rfl
  | some vs =>
    show (vs.map Prod.fst).foldl (IndexImpl.baseVariantStep vs dv m1) []
      = (vs.map Prod.fst).foldl (IndexImpl.baseVariantStep vs dv m2) []
    rw [indexBaseVariantStep_ext vs dv m1 m2 h]

theorem strictEq_undef_left (v : JSVal) : JSVal.strictEq JSVal.undef v = v.isUndef := by
  cases v <;> rfl

theorem indexCompound_filter (rules : List Obj) (sel : Obj) :
    IndexImpl.applyCompoundVariants (some rules) sel
      = (rules.filter (fun r => IndexImpl.compoundMatches r sel)).foldl
          (fun acc r => IndexImpl.mergeProps [some acc, some (IndexImpl.compoundEffects r)])
          [] := by
  unfold IndexImpl.applyCompoundVariants
  rw [foldl_filter_eq]
  cases rules with
  | nil => rfl
  | cons r t =>
    simp only [List.length_cons]
    rw [if_neg (by simp)]
    rfl

theorem utilsCompound_filter (rules : List Obj) (sel : Obj) :
    UtilsImpl.resolveCompoundVariantProps (some rules) sel
      = (rules.filter (fun r => UtilsImpl.checkCompoundVariantConditions
            (r.filter (fun kv => !(kv.1 == "props"))) sel)).foldl
          (fun acc r =>
            if (Obj.getD r "props").truthy
            then Obj.assign acc (Obj.getD r "props").fields
            else acc)
          [] := by
  unfold UtilsImpl.resolveCompoundVariantProps
  rw [foldl_filter_eq]
  rfl

theorem has_filter_key (r : Obj) (q : String × JSVal → Bool) (k : String) :
    Obj.has (r.filter q) k = r.any (fun kv => kv.1 == k && q kv) := by
  induction r with
  | nil => rfl
  | cons kv t ih =>
    by_cases hq : q kv = true
    · rw [List.filter_cons_of_pos hq]
      simp [hq, ih]
    · rw [List.filter_cons_of_neg (by simpa using hq)]
      simp only [List.any_cons, ih]
      have : (q kv) = false := by simpa using hq
      simp [this]

theorem map_fst_filter_key (r : Obj) (p : String → Bool) :
    (r.filter (fun kv => p kv.1)).map Prod.fst = (r.map Prod.fst).filter p := by
  induction r with
  | nil => rfl
  | cons kv t ih =>
    simp only [List.map_cons, List.filter_cons]
    by_cases hp : p kv.1 = true <;> simp [hp, ih]

theorem indexCompoundEffects_eq (r : Obj) :
    IndexImpl.compoundEffects r
      = r.filter (fun kv => kv.1 == "className" || kv.1 == "style") := by
  unfold IndexImpl.compoundEffects
  apply List.filter_congr
  intro kv hmem
  unfold IndexImpl.compoundConditions
  rw [has_filter_key]
  by_cases hc : (kv.1 == "className") = true
  · have hall : r.any (fun e => e.1 == kv.1
        && (!(e.1 == "className") && !(e.1 == "style"))) = false := by
      rw [List.any_eq_false]
      intro e _
      simp only [Bool.and_eq_true, not_and, Bool.not_eq_true]
      intro hek
      have : (e.1 == "className") = true := by
        rw [eq_of_beq hek, eq_of_beq hc]
        simp
      simp [this]
    rw [hall]
    simp [hc]
  · by_cases hs : (kv.1 == "style") = true
    · have hall : r.any (fun e => e.1 == kv.1
          && (!(e.1 == "className") && !(e.1 == "style"))) = false := by
        rw [List.any_eq_false]
        intro e _
        simp only [Bool.and_eq_true, not_and, Bool.not_eq_true]
        intro hek
        have : (e.1 == "style") = true := by
          rw [eq_of_beq hek, eq_of_beq hs]
          simp
        simp [this]
      rw [hall]
      simp [hc, hs]
    · have hany : r.any (fun e => e.1 == kv.1
          && (!(e.1 == "className") && !(e.1 == "style"))) = true := by
        rw [List.any_eq_true]
        refine ⟨kv, hmem, ?_⟩
        simp only [Bool.and_eq_true]
        refine ⟨by simp, ?_, ?_⟩
        · simpa using hc
        · simpa using hs
      rw [hany]
      simp [hc, hs]

theorem slot_clone_get (f : JSVal → JSVal) (k : String) :
    ∀ (o acc : Obj),
      Obj.get (o.foldl (fun acc kv => Obj.set acc kv.1 (f kv.2)) acc) k
        = firstSome ((Obj.getLast o k).map f) (Obj.get acc k) := by
  intro o
  induction o with
  | nil => intro acc; simp [Obj.getLast]
  | cons kv t ih =>
    intro acc
    simp only [List.foldl_cons]
    rw [ih, Obj.getLast_cons, firstSome_map, firstSome_assoc]
    congr 1
    by_cases hk : (kv.1 == k) = true
    · have hke := eq_of_beq hk
      subst hke
      simp [Obj.get_set_self]
    · rw [Obj.get_set_ne _ _ _ _ (fun he => hk (by simp [he]))]
      simp [hk]

/-!
## Claim theorems
-/

/-- C2 counterexample: the claim says a stringified `"true"` selection is
rejected and never looked up, for EVERY implementation's variant
resolution; but src/index.tsx `applyBaseVariants` has no boolean guard —
`String("true")` is `"true"`, the lookup hits the singleton `true` option
(a boolean variant per `isBooleanVariant`), and the category DOES
contribute its property set. -/
theorem claim2_counterexample :
    GuardImpl.isBooleanVariant [("true", [("p", JSVal.num 1)])] = true
    ∧ IndexImpl.applyBaseVariants
        (some [("active", [("true", [("p", JSVal.num 1)])])]) none
        [("active", JSVal.str "true")] = [("p", JSVal.num 1)]
    ∧ IndexImpl.applyBaseVariants
        (some [("active", [("true", [("p", JSVal.num 1)])])]) none
        [("active", JSVal.str "true")] ≠ [] := by
  refine ⟨rfl, rfl, ?_⟩
  intro h
  exact List.noConfusion ((show IndexImpl.applyBaseVariants
    (some [("active", [("true", [("p", JSVal.num 1)])])]) none
    [("active", JSVal.str "true")] = [("p", JSVal.num 1)] from rfl).symm.trans h)

/-- C2 amended: the boolean-variant guard holds in the part_000
implementation (`applyBaseVariants` with `isBooleanVariant`): for a
category whose option set is exactly the singleton key `true`, selection
`true` contributes the option's property set, while `false`, `undefined`,
`"true"` and `"false"` contribute nothing.  In the src/index.tsx and
utils.ts implementations there is no guard: the selection is coerced
with `String()`, so the string `"true"` behaves exactly like the boolean
`true` and does select the option (shown both generically, as equality
of the two resolutions, and on a concrete category where the selected
property set is observed), and only `false`, `"false"` and `undefined`
(explicit or absent) yield no contribution. -/
theorem claim2_amended (c : String) (ps : Obj) :
    GuardImpl.isBooleanVariant [("true", ps)] = true
    ∧ GuardImpl.applyBaseVariants (some [(c, [("true", ps)])])
        [(c, JSVal.bool true)] = GuardImpl.mergeProps [some [], some ps]
    ∧ GuardImpl.applyBaseVariants (some [(c, [("true", ps)])])
        [(c, JSVal.bool false)] = []
    ∧ GuardImpl.applyBaseVariants (some [(c, [("true", ps)])]) [] = []
    ∧ GuardImpl.applyBaseVariants (some [(c, [("true", ps)])])
        [(c, JSVal.undef)] = []
    ∧ GuardImpl.applyBaseVariants (some [(c, [("true", ps)])])
        [(c, JSVal.str "true")] = []
    ∧ GuardImpl.applyBaseVariants (some [(c, [("true", ps)])])
        [(c, JSVal.str "false")] = []
    ∧ IndexImpl.applyBaseVariants (some [(c, [("true", ps)])]) none
        [(c, JSVal.str "true")] = IndexImpl.mergeProps [some [], some ps]
    ∧ IndexImpl.applyBaseVariants (some [(c, [("true", ps)])]) none
        [(c, JSVal.bool true)] = IndexImpl.mergeProps [some [], some ps]
    ∧ IndexImpl.applyBaseVariants (some [(c, [("true", ps)])]) none
        [(c, JSVal.bool false)] = []
    ∧ IndexImpl.applyBaseVariants (some [(c, [("true", ps)])]) none
        [(c, JSVal.str "false")] = []
    ∧ IndexImpl.applyBaseVariants (some [(c, [("true", ps)])]) none
        [(c, JSVal.undef)] = []
    ∧ IndexImpl.applyBaseVariants (some [(c, [("true", ps)])]) none [] = []
    ∧ UtilsImpl.resolveVariantProps (some [(c, [("true", ps)])])
        [(c, JSVal.str "true")]
      = UtilsImpl.resolveVariantProps (some [(c, [("true", ps)])])
        [(c, JSVal.bool true)]
    ∧ UtilsImpl.resolveVariantProps
        (some [("active", [("true", [("p", JSVal.num 1)])])])
        [("active", JSVal.str "true")] = [("p", JSVal.num 1)]
    ∧ UtilsImpl.resolveVariantProps (some [(c, [("true", ps)])])
        [(c, JSVal.bool false)] = []
    ∧ UtilsImpl.resolveVariantProps (some [(c, [("true", ps)])])
        [(c, JSVal.str "false")] = []
    ∧ UtilsImpl.resolveVariantProps (some [(c, [("true", ps)])])
        [(c, JSVal.undef)] = []
    ∧ UtilsImpl.resolveVariantProps (some [(c, [("true", ps)])]) [] = [] := by
  refine ⟨rfl, ?_, ?_, ?_, ?_, ?_, ?_, ?_, ?_, ?_, ?_, ?_, ?_, rfl, rfl, ?_,
    ?_, ?_, ?_⟩
  all_goals
    simp [GuardImpl.applyBaseVariants, GuardImpl.guardBaseVariantStep,
      IndexImpl.applyBaseVariants, IndexImpl.baseVariantStep,
      UtilsImpl.resolveVariantProps, UtilsImpl.resolveVariantStep,
      GuardImpl.isBooleanVariant, lookupDef, lookupStyles, Obj.getD, Obj.get,
      JSVal.isUndef, JSVal.toStr, JSVal.truthy]

/-- C5 counterexample: the claim says a merge whose only class-name
contribution is `{className: ""}` has NO class-name property in its
result; but src/index.tsx `mergeProps` routes the empty string through
`cn` and stores the (empty) result, so the merged object carries
`className: ""` — present, not absent. -/
theorem claim5_counterexample :
    IndexImpl.mergeProps [some [("className", JSVal.str "")]]
      = [("className", JSVal.str "")]
    ∧ Obj.get (IndexImpl.mergeProps [some [("className", JSVal.str "")]])
        "className" ≠ none := by
  refine ⟨rfl, ?_⟩
  intro h
  exact Option.noConfusion ((show Obj.get (IndexImpl.mergeProps
    [some [("className", JSVal.str "")]]) "className" = some (JSVal.str "")
    from rfl).symm.trans h)

/-- C5 amended: the collapse to "no class-name property" holds in the
utils.ts merge (`mergeFinalProps`, whose `cn` maps an empty result to
`undefined` and whose final write is guarded by truthiness): whenever
every class-name contribution of the four sources is falsy (empty string
included), the result has no `className` key at all.  In the
src/index.tsx `mergeProps`, by contrast, the single contribution
`{className: ""}` leaves `className` present as the empty string. -/
theorem claim5_amended :
    (∀ (base : Option Obj) (v c d : Obj),
      (∀ o ∈ [orEmpty base, v, c, d], ∀ kv ∈ o, kv.1 = "className" →
        kv.2.truthy = false) →
      Obj.get (UtilsImpl.mergeFinalProps base v c d) "className" = none)
    ∧ Obj.get (IndexImpl.mergeProps [some [("className", JSVal.str "")]])
        "className" = some (JSVal.str "") :=
  ⟨utilsMergeFinal_className_none, rfl⟩

/-- C5 amended, witness: the single contribution `{className: ""}` in the
variants slot of `mergeFinalProps` collapses to an absent `className`. -/
theorem claim5_amended_witness :
    Obj.get (UtilsImpl.mergeFinalProps none [("className", JSVal.str "")] [] [])
      "className" = none :=
  claim5_amended.1 none [("className", JSVal.str "")] [] []
    (by
      intro o ho
      simp only [orEmpty, List.mem_cons, List.not_mem_nil, or_false] at ho
      rcases ho with rfl | rfl | rfl | rfl
      · intro kv hkv
        cases hkv
      · intro kv hkv hk
        simp only [List.mem_cons, List.not_mem_nil, or_false] at hkv
        subst hkv
        rfl
      · intro kv hkv
        cases hkv
      · intro kv hkv
        cases hkv)

/-- C7 counterexample: the claim says an `undefined` value in a later
contributor never overwrites an earlier contributor's value, in every
merge of the program; but utils.ts `mergeFinalProps` assigns plain keys
without any `undefined` check, so a direct `{a: undefined}` overwrites
`base`'s `a: 1` with `undefined`. -/
theorem claim7_counterexample :
    Obj.get (UtilsImpl.mergeFinalProps (some [("a", JSVal.num 1)]) [] []
        [("a", JSVal.undef)]) "a" = some JSVal.undef
    ∧ (some JSVal.undef : Option JSVal) ≠ some (JSVal.num 1) := by
  refine ⟨rfl, ?_⟩
  intro h
  injection h with h'
  exact JSVal.noConfusion h'

/-- C7 amended: for every non-reserved key, all three merges are
last-write-wins across their contributor sequence.  The
"undefined is not provided" rule holds in the two `mergeProps`
implementations (src/index.tsx and part_000): the observed value is the
last DEFINED contribution (`lastDefSources`).  In utils.ts
`mergeFinalProps` the rule does not hold: the observed value is the last
contribution whether or not it is defined (`lastSources`), `ref` being
split off and re-attached separately. -/
theorem claim7_last_write_wins :
    (∀ (ps : List (Option Obj)) (k : String), k ≠ "className" → k ≠ "style" →
      Obj.get (IndexImpl.mergeProps ps) k = lastDefSources ps k)
    ∧ (∀ (ps : List (Option Obj)) (k : String), k ≠ "className" → k ≠ "style" →
      Obj.get (GuardImpl.mergeProps ps) k = lastDefSources ps k)
    ∧ (∀ (base : Option Obj) (v c d : Obj) (k : String),
      k ≠ "style" → k ≠ "className" → k ≠ "ref" →
      Obj.get (UtilsImpl.mergeFinalProps base v c d) k
        = lastSources [base, some v, some c, some d] k) :=
  ⟨fun ps k h1 h2 => indexMergeProps_get k h1 h2 ps,
   fun ps k h1 h2 => guardMergeProps_get k h1 h2 ps,
   fun base v c d k h1 h2 h3 => utilsMergeFinalProps_get k h1 h2 h3 base v c d⟩

/-- C7 amended, witness: with contributors `{a:1}` then `{a:2}` the
index.tsx merge observes `2` at `a`, and an `undefined` after it is
skipped. -/
theorem claim7_last_write_wins_witness :
    Obj.get (IndexImpl.mergeProps [some [("a", JSVal.num 1)],
        some [("a", JSVal.num 2)], some [("a", JSVal.undef)]]) "a"
      = lastDefSources [some [("a", JSVal.num 1)], some [("a", JSVal.num 2)],
          some [("a", JSVal.undef)]] "a" :=
  claim7_last_write_wins.1 [some [("a", JSVal.num 1)], some [("a", JSVal.num 2)],
    some [("a", JSVal.undef)]] "a" (by decide) (by decide)

/-- C8 counterexample: the claim says simple-variant resolution depends
only on the key-to-value mapping of the active selection; but utils.ts
`resolveVariantProps` iterates the SELECTION object's own keys, so two
selections holding the same pairs in different insertion order resolve to
different property sets (here the shared key `p` is won by whichever
category is enumerated last). -/
theorem claim8_counterexample :
    List.Perm ([("a", JSVal.str "x"), ("b", JSVal.str "y")] : Obj)
      [("b", JSVal.str "y"), ("a", JSVal.str "x")]
    ∧ (∀ k, Obj.get ([("a", JSVal.str "x"), ("b", JSVal.str "y")] : Obj) k
        = Obj.get ([("b", JSVal.str "y"), ("a", JSVal.str "x")] : Obj) k)
    ∧ UtilsImpl.resolveVariantProps
        (some [("a", [("x", [("p", JSVal.num 1)])]),
               ("b", [("y", [("p", JSVal.num 2)])])])
        [("a", JSVal.str "x"), ("b", JSVal.str "y")] = [("p", JSVal.num 2)]
    ∧ UtilsImpl.resolveVariantProps
        (some [("a", [("x", [("p", JSVal.num 1)])]),
               ("b", [("y", [("p", JSVal.num 2)])])])
        [("b", JSVal.str "y"), ("a", JSVal.str "x")] = [("p", JSVal.num 1)]
    ∧ ([("p", JSVal.num 2)] : Obj) ≠ [("p", JSVal.num 1)] := by
  refine ⟨List.Perm.swap _ _ _, ?_, rfl, rfl, ?_⟩
  · intro k
    show (if ("a" == k) = true then some (JSVal.str "x")
        else if ("b" == k) = true then some (JSVal.str "y") else none)
      = (if ("b" == k) = true then some (JSVal.str "y")
        else if ("a" == k) = true then some (JSVal.str "x") else none)
    by_cases h1 : ("a" == k) = true
    · have hk := eq_of_beq h1
      subst hk
      rfl
    · by_cases h2 : ("b" == k) = true
      · have hk := eq_of_beq h2
        subst hk
        rfl
      · simp [h1, h2]
  · intro h
    injection h with h1 _
    injection h1 with _ h2
    injection h2 with h3
    exact absurd h3 (by decide)

/-- C8 amended: in the src/index.tsx implementation the claim holds:
`applyBaseVariants` folds over the configuration-declared key order of
`variants` and reads the active selection only through property lookup,
so its output is invariant under any reordering of the selection map's
entries (any two selections with the same lookup table resolve alike).
In the utils.ts implementation, resolution iterates the selection
object's own key order instead, and the output can depend on it. -/
theorem claim8_amended :
    (∀ (v : Option Variants) (dv : Option Obj) (m1 m2 : Obj),
      (∀ k, Obj.get m1 k = Obj.get m2 k) →
      IndexImpl.applyBaseVariants v dv m1 = IndexImpl.applyBaseVariants v dv m2)
    ∧ (∀ (vs : Variants) (dv : Option Obj) (sel : Obj),
      IndexImpl.applyBaseVariants (some vs) dv sel
        = (vs.map Prod.fst).foldl (IndexImpl.baseVariantStep vs dv sel) []) :=
  ⟨indexApplyBaseVariants_ext, fun _ _ _ => rfl⟩

/-- C8 amended, witness: the two permuted selections of the
counterexample are lookup-equal, and index.tsx resolves them to the same
property set. -/
theorem claim8_amended_witness :
    IndexImpl.applyBaseVariants
      (some [("a", [("x", [("p", JSVal.num 1)])]),
             ("b", [("y", [("p", JSVal.num 2)])])]) none
      [("a", JSVal.str "x"), ("b", JSVal.str "y")]
    = IndexImpl.applyBaseVariants
      (some [("a", [("x", [("p", JSVal.num 1)])]),
             ("b", [("y", [("p", JSVal.num 2)])])]) none
      [("b", JSVal.str "y"), ("a", JSVal.str "x")] :=
  claim8_amended.1 _ none _ _
    (by
      intro k
      show (if ("a" == k) = true then some (JSVal.str "x")
          else if ("b" == k) = true then some (JSVal.str "y") else none)
        = (if ("b" == k) = true then some (JSVal.str "y")
          else if ("a" == k) = true then some (JSVal.str "x") else none)
      by_cases h1 : ("a" == k) = true
      · have hk := eq_of_beq h1
        subst hk
        rfl
      · by_cases h2 : ("b" == k) = true
        · have hk := eq_of_beq h2
          subst hk
          rfl
        · simp [h1, h2])

/-- C1: every render merges the four property sources in one fixed
precedence order, invariant across renders, with `config.base` lowest,
direct instance properties highest, and later sources winning on
conflicting non-reserved keys.  In src/index.tsx (and in the utils.ts
`mergeFinalProps`) the relative order is simple-variant BELOW
compound-variant (the spec's default: compound overrides simple); in
part_000 it is the opposite (compound below simple) — each implementation
applies its one order on every render.  The value observed at every
non-reserved key is the last defined contribution in that fixed source
order (for `mergeFinalProps`, the last contribution, with `ref` handled
separately). -/
theorem claim1_merge_precedence :
    (∀ (base : Option Obj) (variants : Option Variants) (dv : Option Obj)
       (cvs : Option (List Obj)) (props : Obj) (k : String),
       k ≠ "className" → k ≠ "style" →
       Obj.get (IndexImpl.styledRender base variants dv cvs props) k
         = lastDefSources
             [some (orEmpty base),
              some (IndexImpl.applyBaseVariants variants dv
                (IndexImpl.activeSelection variants dv props)),
              some (IndexImpl.applyCompoundVariants cvs
                (IndexImpl.activeSelection variants dv props)),
              some (IndexImpl.separateProps (variantKeysOf variants)
                (props.filter (fun kv => !(kv.1 == "children")))).2] k)
    ∧ (∀ (base : Option Obj) (variants : Option Variants) (dv : Option Obj)
       (cvs : Option (List Obj)) (props : Obj) (k : String),
       k ≠ "className" → k ≠ "style" →
       Obj.get (GuardImpl.styledRender base variants dv cvs props) k
         = lastDefSources
             [some (orEmpty base),
              some (GuardImpl.applyCompoundVariants cvs
                (spread2 (orEmpty dv)
                  (GuardImpl.separateProps (variantKeysOf variants)
                    (props.filter (fun kv => !(kv.1 == "children")))).1)),
              some (GuardImpl.applyBaseVariants variants
                (spread2 (orEmpty dv)
                  (GuardImpl.separateProps (variantKeysOf variants)
                    (props.filter (fun kv => !(kv.1 == "children")))).1)),
              some (GuardImpl.separateProps (variantKeysOf variants)
                (props.filter (fun kv => !(kv.1 == "children")))).2] k)
    ∧ (∀ (base : Option Obj) (v c d : Obj) (k : String),
       k ≠ "style" → k ≠ "className" → k ≠ "ref" →
       Obj.get (UtilsImpl.mergeFinalProps base v c d) k
         = lastSources [base, some v, some c, some d] k) := by
  refine ⟨?_, ?_, ?_⟩
  · intro base variants dv cvs props k h1 h2
    exact indexMergeProps_get k h1 h2 _
  · intro base variants dv cvs props k h1 h2
    exact guardMergeProps_get k h1 h2 _
  · intro base v c d k h1 h2 h3
    exact utilsMergeFinalProps_get k h1 h2 h3 base v c d

/-- C1 witness: a concrete render in which base, the simple variant, the
compound variant and a direct prop all write the key `p`; the direct
prop (the last, highest-precedence source) is observed. -/
theorem claim1_merge_precedence_witness :
    Obj.get (IndexImpl.styledRender (some [("p", JSVal.num 0)])
        (some [("color", [("red", [("p", JSVal.num 1)])])])
        none
        (some [[("color", JSVal.str "red"), ("className", JSVal.str "x")]])
        [("color", JSVal.str "red"), ("p", JSVal.num 9)]) "p"
      = lastDefSources
          [some (orEmpty (some [("p", JSVal.num 0)])),
           some (IndexImpl.applyBaseVariants
             (some [("color", [("red", [("p", JSVal.num 1)])])]) none
             (IndexImpl.activeSelection
               (some [("color", [("red", [("p", JSVal.num 1)])])]) none
               [("color", JSVal.str "red"), ("p", JSVal.num 9)])),
           some (IndexImpl.applyCompoundVariants
             (some [[("color", JSVal.str "red"), ("className", JSVal.str "x")]])
             (IndexImpl.activeSelection
               (some [("color", [("red", [("p", JSVal.num 1)])])]) none
               [("color", JSVal.str "red"), ("p", JSVal.num 9)])),
           some (IndexImpl.separateProps
             (variantKeysOf (some [("color", [("red", [("p", JSVal.num 1)])])]))
             (([("color", JSVal.str "red"), ("p", JSVal.num 9)] : Obj).filter
               (fun kv => !(kv.1 == "children")))).2] "p" :=
  claim1_merge_precedence.1 (some [("p", JSVal.num 0)])
    (some [("color", [("red", [("p", JSVal.num 1)])])]) none
    (some [[("color", JSVal.str "red"), ("className", JSVal.str "x")]])
    [("color", JSVal.str "red"), ("p", JSVal.num 9)] "p" (by decide) (by decide)

/-- C6: in both styled-component pipelines the active selection uses the
default option for a category (a key of `variants`, other than the
destructured `children` slot) exactly when the instance supplies no
defined value for it: the observed selection value is the instance's last
defined entry when one exists, and the `defaultVariants` entry otherwise.
In particular an explicit boolean `false` from the instance is defined,
so it is kept and the default is ignored. -/
theorem claim6_default_overlay :
    (∀ (variants : Option Variants) (dv props : Obj) (k : String),
      (variantKeysOf variants).contains k = true → k ≠ "children" →
      (dv.map Prod.fst).Nodup →
      Obj.get (IndexImpl.activeSelection variants (some dv) props) k
        = firstSome (Obj.getLastDef props k) (Obj.get dv k))
    ∧ (∀ (variants : Option Variants) (dv props : Obj) (k : String),
      (variantKeysOf variants).contains k = true → k ≠ "children" →
      Obj.getLastDef props k = some (JSVal.bool false) →
      Obj.get (IndexImpl.activeSelection variants (some dv) props) k
        = some (JSVal.bool false))
    ∧ (∀ (vks : List String) (dv props : Obj) (k : String),
      vks.contains k = true → (dv.map Prod.fst).Nodup →
      Obj.get (StyledV1.buildActiveVariants vks (some dv) props) k
        = firstSome (Obj.getLastDef props k) (Obj.get dv k)) := by
  refine ⟨?_, ?_, ?_⟩
  · intro variants dv props k hk hch hnd
    rw [indexActiveSelection_get variants (some dv) props k hk hch]
    rw [show orEmpty (some dv) = dv from rfl, getLast_eq_get_of_nodup dv k hnd]
  · intro variants dv props k hk hch hdef
    rw [indexActiveSelection_get variants (some dv) props k hk hch, hdef]
    rfl
  · intro vks dv props k hk hnd
    rw [v1BuildActive_get vks (some dv) props k hk (Or.inr ⟨dv, rfl, hnd⟩)]
    rfl

/-- C6 witness: with default `size: "md"`, an instance-supplied
`size: "sm"` wins; the theorem applied at that concrete render. -/
theorem claim6_default_overlay_witness :
    Obj.get (IndexImpl.activeSelection (some [("size", [("sm", [])])])
        (some [("size", JSVal.str "md")]) [("size", JSVal.str "sm")]) "size"
      = firstSome (Obj.getLastDef [("size", JSVal.str "sm")] "size")
          (Obj.get [("size", JSVal.str "md")] "size") :=
  claim6_default_overlay.1 (some [("size", [("sm", [])])])
    [("size", JSVal.str "md")] [("size", JSVal.str "sm")] "size"
    (by decide) (by decide) (by decide)

/-- C3: in the flat rule style (src/index.tsx, part_000) the condition
keys of a compound rule are exactly the rule's keys minus `className` and
`style`, and the contributed effect on a match is exactly the rule's
`className`/`style` entries.  In the property-bag style (utils.ts) the
condition keys are exactly the rule's keys minus the dedicated `props`
sub-key — which coincides with "all keys except className, style and
props" whenever the rule carries no top-level `className`/`style` key, as
the typed configurations guarantee — and the contribution of a matching
rule is exactly the content of its `props` bag. -/
theorem claim3_condition_effect_keys :
    (∀ r : Obj, (IndexImpl.compoundConditions r).map Prod.fst
        = (r.map Prod.fst).filter
            (fun k => !(k == "className") && !(k == "style")))
    ∧ (∀ r : Obj, IndexImpl.compoundEffects r
        = r.filter (fun kv => kv.1 == "className" || kv.1 == "style"))
    ∧ (∀ r : Obj, (r.filter (fun kv => !(kv.1 == "props"))).map Prod.fst
        = (r.map Prod.fst).filter (fun k => !(k == "props")))
    ∧ (∀ r : Obj, Obj.has r "className" = false → Obj.has r "style" = false →
        (r.filter (fun kv => !(kv.1 == "props"))).map Prod.fst
          = (r.map Prod.fst).filter
              (fun k => !(k == "className") && !(k == "style") && !(k == "props")))
    ∧ (∀ (sel acc r : Obj), UtilsImpl.resolveCompoundStep sel acc r
        = if UtilsImpl.checkCompoundVariantConditions
              (r.filter (fun kv => !(kv.1 == "props"))) sel then
            (if (Obj.getD r "props").truthy
             then Obj.assign acc (Obj.getD r "props").fields else acc)
          else acc) := by
  refine ⟨?_, indexCompoundEffects_eq, ?_, ?_, fun _ _ _ => rfl⟩
  · intro r
    exact map_fst_filter_key r (fun k => !(k == "className") && !(k == "style"))
  · intro r
    exact map_fst_filter_key r (fun k => !(k == "props"))
  · intro r hcn hst
    rw [map_fst_filter_key r (fun k => !(k == "props"))]
    apply List.filter_congr
    intro k hk
    have hkc : (k == "className") = false := by
      rw [beq_eq_false_iff_ne]
      intro he
      rw [he] at hk
      rw [(has_iff_mem_keys r "className").mpr hk] at hcn
      cases hcn
    have hks : (k == "style") = false := by
      rw [beq_eq_false_iff_ne]
      intro he
      rw [he] at hk
      rw [(has_iff_mem_keys r "style").mpr hk] at hst
      cases hst
    rw [hkc, hks]
    rfl

/-- C3 witness: a flat rule `{color: "red", className: "x", style: {}}`
has condition keys `["color"]` and effect entries exactly its
`className`/`style` entries; a bag rule without top-level
className/style has condition keys equal to its keys minus
`className`/`style`/`props`. -/
theorem claim3_condition_effect_keys_witness :
    (IndexImpl.compoundConditions [("color", JSVal.str "red"),
        ("className", JSVal.str "x"), ("style", JSVal.obj [])]).map Prod.fst
      = (([("color", JSVal.str "red"), ("className", JSVal.str "x"),
          ("style", JSVal.obj [])] : Obj).map Prod.fst).filter
          (fun k => !(k == "className") && !(k == "style"))
    ∧ (([("color", JSVal.str "red"),
        ("props", JSVal.obj [("q", JSVal.num 1)])] : Obj).filter
          (fun kv => !(kv.1 == "props"))).map Prod.fst
      = (([("color", JSVal.str "red"),
          ("props", JSVal.obj [("q", JSVal.num 1)])] : Obj).map Prod.fst).filter
          (fun k => !(k == "className") && !(k == "style")
              && !(k == "props")) :=
  ⟨claim3_condition_effect_keys.1 [("color", JSVal.str "red"),
      ("className", JSVal.str "x"), ("style", JSVal.obj [])],
   claim3_condition_effect_keys.2.2.2.1 [("color", JSVal.str "red"),
      ("props", JSVal.obj [("q", JSVal.num 1)])] rfl rfl⟩

/-- C4: a compound rule matches exactly when every one of its condition
entries is strictly equal (`===`, no coercion) to the active selection's
value at that key; ALL matching rules contribute — resolution equals the
fold of the merge over exactly the matching rules, in rule-array order,
so there is no short-circuit on the first match — and zero matching
rules yield the empty contribution.  In the property-bag pipeline the
same filter-fold shape holds, and a later matching rule's value for a
conflicting key in its `props` bag wins over an earlier matching
rule's. -/
theorem claim4_compound_matching :
    (∀ (r sel : Obj), IndexImpl.compoundMatches r sel = true ↔
      ∀ kv ∈ IndexImpl.compoundConditions r,
        JSVal.strictEq (Obj.getD sel kv.1) kv.2 = true)
    ∧ (∀ (rules : List Obj) (sel : Obj),
      IndexImpl.applyCompoundVariants (some rules) sel
        = (rules.filter (fun r => IndexImpl.compoundMatches r sel)).foldl
            (fun acc r =>
              IndexImpl.mergeProps [some acc, some (IndexImpl.compoundEffects r)])
            [])
    ∧ (∀ (rules : List Obj) (sel : Obj),
      (∀ r ∈ rules, IndexImpl.compoundMatches r sel = false) →
      IndexImpl.applyCompoundVariants (some rules) sel = [])
    ∧ (∀ (rules : List Obj) (sel : Obj),
      UtilsImpl.resolveCompoundVariantProps (some rules) sel
        = (rules.filter (fun r => UtilsImpl.checkCompoundVariantConditions
              (r.filter (fun kv => !(kv.1 == "props"))) sel)).foldl
            (fun acc r =>
              if (Obj.getD r "props").truthy
              then Obj.assign acc (Obj.getD r "props").fields
              else acc)
            [])
    ∧ (∀ (sel r1 r2 p1 p2 : Obj) (k : String) (v : JSVal),
      UtilsImpl.checkCompoundVariantConditions
        (r1.filter (fun kv => !(kv.1 == "props"))) sel = true →
      UtilsImpl.checkCompoundVariantConditions
        (r2.filter (fun kv => !(kv.1 == "props"))) sel = true →
      Obj.getD r1 "props" = JSVal.obj p1 →
      Obj.getD r2 "props" = JSVal.obj p2 →
      Obj.getLast p2 k = some v →
      Obj.get (UtilsImpl.resolveCompoundVariantProps (some [r1, r2]) sel) k
        = some v) := by
  refine ⟨?_, indexCompound_filter, ?_, utilsCompound_filter, ?_⟩
  · intro r sel
    unfold IndexImpl.compoundMatches
    exact List.all_eq_true
  · intro rules sel hall
    rw [indexCompound_filter]
    have : rules.filter (fun r => IndexImpl.compoundMatches r sel) = [] := by
      rw [List.filter_eq_nil_iff]
      intro r hr
      rw [hall r hr]
      exact Bool.false_ne_true
    rw [this]
    rfl
  · intro sel r1 r2 p1 p2 k v h1 h2 hp1 hp2 hlast
    have hstep : UtilsImpl.resolveCompoundVariantProps (some [r1, r2]) sel
        = Obj.assign (Obj.assign [] p1) p2 := by
      show UtilsImpl.resolveCompoundStep sel
        (UtilsImpl.resolveCompoundStep sel [] r1) r2 = _
      unfold UtilsImpl.resolveCompoundStep
      rw [hp1, hp2, if_pos h1, if_pos h2]
      rfl
    rw [hstep, Obj.get_assign, hlast]
    rfl

/-- C4 witness: two rules both matching the selection
`{color: "red", size: "lg"}`; both contribute, merged in array order. -/
theorem claim4_compound_matching_witness :
    IndexImpl.applyCompoundVariants
      (some [[("color", JSVal.str "red"), ("className", JSVal.str "a")],
             [("size", JSVal.str "lg"), ("className", JSVal.str "b")]])
      [("color", JSVal.str "red"), ("size", JSVal.str "lg")]
      = (([[("color", JSVal.str "red"), ("className", JSVal.str "a")],
           [("size", JSVal.str "lg"), ("className", JSVal.str "b")]] :
          List Obj).filter
            (fun r => IndexImpl.compoundMatches r
              [("color", JSVal.str "red"), ("size", JSVal.str "lg")])).foldl
          (fun acc r =>
            IndexImpl.mergeProps [some acc, some (IndexImpl.compoundEffects r)])
          []
    ∧ Obj.get (UtilsImpl.resolveCompoundVariantProps
        (some [[("color", JSVal.str "red"),
                ("props", JSVal.obj [("q", JSVal.num 1)])],
               [("color", JSVal.str "red"),
                ("props", JSVal.obj [("q", JSVal.num 2)])]])
        [("color", JSVal.str "red")]) "q" = some (JSVal.num 2) :=
  ⟨claim4_compound_matching.2.1
    [[("color", JSVal.str "red"), ("className", JSVal.str "a")],
     [("size", JSVal.str "lg"), ("className", JSVal.str "b")]]
    [("color", JSVal.str "red"), ("size", JSVal.str "lg")],
   claim4_compound_matching.2.2.2.2 [("color", JSVal.str "red")]
    [("color", JSVal.str "red"), ("props", JSVal.obj [("q", JSVal.num 1)])]
    [("color", JSVal.str "red"), ("props", JSVal.obj [("q", JSVal.num 2)])]
    [("q", JSVal.num 1)] [("q", JSVal.num 2)] "q" (JSVal.num 2)
    rfl rfl rfl rfl rfl⟩

/-- C9: variant and compound-variant resolution degrade every
"not found" path to no contribution, never an error: a missing
`variants`/`compoundVariants` table resolves to the empty property set in
both pipelines; a category whose (explicit-or-defaulted) defined
selection value has no matching option key leaves the accumulator
untouched (index.tsx step, and likewise the utils.ts step); and a
compound rule whose condition references a category absent from the
selection fails strict equality, does not match, and contributes
nothing.  (Totality itself is by construction: every embedded resolution
function is a total Lean function.) -/
theorem claim9_lookup_miss_no_contribution :
    (∀ (dv : Option Obj) (sel : Obj),
      IndexImpl.applyBaseVariants none dv sel = [])
    ∧ (∀ sel : Obj, IndexImpl.applyCompoundVariants none sel = [])
    ∧ (∀ sel : Obj, UtilsImpl.resolveVariantProps none sel = [])
    ∧ (∀ sel : Obj, UtilsImpl.resolveCompoundVariantProps none sel = [])
    ∧ (∀ (vs : Variants) (dv : Option Obj) (sel acc : Obj) (key : String)
        (vd : VariantDef),
        lookupDef vs key = some vd →
        (Obj.getD sel key).isUndef = false →
        lookupStyles vd (Obj.getD sel key).toStr = none →
        IndexImpl.baseVariantStep vs dv sel acc key = acc)
    ∧ (∀ (cv : Variants) (acc : Obj × JSVal × JSVal) (kv : String × JSVal)
        (vd : VariantDef),
        lookupDef cv kv.1 = some vd →
        lookupStyles vd kv.2.toStr = none →
        UtilsImpl.resolveVariantStep cv acc kv = acc)
    ∧ (∀ (r sel : Obj) (c : String) (v : JSVal),
        (c, v) ∈ IndexImpl.compoundConditions r →
        Obj.get sel c = none → v.isUndef = false →
        IndexImpl.compoundMatches r sel = false
        ∧ IndexImpl.applyCompoundVariants (some [r]) sel = []) := by
  refine ⟨fun _ _ => rfl, fun _ => rfl, fun _ => rfl, fun _ => rfl, ?_, ?_, ?_⟩
  · intro vs dv sel acc key vd hdef hnu hmiss
    unfold IndexImpl.baseVariantStep
    rw [hdef]
    simp only [hnu, Bool.false_eq_true, not_false_eq_true, if_neg, hmiss]
  · intro cv acc kv vd hdef hmiss
    unfold UtilsImpl.resolveVariantStep
    by_cases hu : kv.2.isUndef = true
    · rw [if_neg (by simp [hu])]
    · have hnu : kv.2.isUndef = false := by simpa using hu
      rw [if_pos (by simp [hnu])]
      simp only [hdef, hmiss]
  · intro r sel c v hmem hnone hnu
    have hmatch : IndexImpl.compoundMatches r sel = false := by
      cases hb : IndexImpl.compoundMatches r sel with
      | false => rfl
      | true =>
        exfalso
        unfold IndexImpl.compoundMatches at hb
        rw [List.all_eq_true] at hb
        have := hb (c, v) hmem
        rw [show Obj.getD sel c = JSVal.undef from by
          unfold Obj.getD; rw [hnone]; rfl] at this
        rw [strictEq_undef_left] at this
        rw [hnu] at this
        cases this
    refine ⟨hmatch, ?_⟩
    show IndexImpl.compoundStep sel [] r = []
    unfold IndexImpl.compoundStep
    rw [hmatch]
    simp

/-- C9 witness: an unknown selection value (`"lg"` with no matching
option key) leaves the accumulator unchanged, and a compound condition
on an absent category does not match. -/
theorem claim9_lookup_miss_witness :
    IndexImpl.baseVariantStep [("size", [("sm", [("p", JSVal.num 1)])])] none
      [("size", JSVal.str "lg")] [("q", JSVal.num 7)] "size" = [("q", JSVal.num 7)]
    ∧ IndexImpl.compoundMatches [("theme", JSVal.str "dark")] [] = false
    ∧ IndexImpl.applyCompoundVariants (some [[("theme", JSVal.str "dark")]]) [] = [] := by
  refine ⟨?_, ?_, ?_⟩
  · exact claim9_lookup_miss_no_contribution.2.2.2.2.1
      [("size", [("sm", [("p", JSVal.num 1)])])] none [("size", JSVal.str "lg")]
      [("q", JSVal.num 7)] "size" [("sm", [("p", JSVal.num 1)])] rfl rfl rfl
  · exact (claim9_lookup_miss_no_contribution.2.2.2.2.2.2
      [("theme", JSVal.str "dark")] [] "theme" (JSVal.str "dark")
      (by simp [IndexImpl.compoundConditions]) rfl rfl).1
  · exact (claim9_lookup_miss_no_contribution.2.2.2.2.2.2
      [("theme", JSVal.str "dark")] [] "theme" (JSVal.str "dark")
      (by simp [IndexImpl.compoundConditions]) rfl rfl).2

/-- C10: applying `useSlot` to a component already carrying the
`Decorated` marker leaves the original component object unmodified and
returns a DIFFERENT object — a fresh wrapper whose statics observe, at
every key, the new static props first and otherwise a shallow copy of
the original's own statics.  Only a first call on an undecorated
component mutates the component object itself: the returned value IS the
input object, now marked decorated, with the new statics assigned over
its own. -/
theorem claim10_useSlot_clone :
    (∀ (comp : SlotImpl.SlotComp) (sp : Obj), comp.decorated = true →
      (SlotImpl.useSlot comp sp).original = comp
      ∧ (SlotImpl.useSlot comp sp).isSameObject = false
      ∧ (SlotImpl.useSlot comp sp).returned.decorated = true
      ∧ ∀ k, Obj.get (SlotImpl.useSlot comp sp).returned.statics k
          = firstSome (Obj.getLast sp k)
              ((Obj.getLast comp.statics k).map SlotImpl.shallowCopyVal))
    ∧ (∀ (comp : SlotImpl.SlotComp) (sp : Obj), comp.decorated = false →
      (SlotImpl.useSlot comp sp).isSameObject = true
      ∧ (SlotImpl.useSlot comp sp).original = (SlotImpl.useSlot comp sp).returned
      ∧ (SlotImpl.useSlot comp sp).returned.decorated = true
      ∧ ∀ k, Obj.get (SlotImpl.useSlot comp sp).returned.statics k
          = firstSome (Obj.getLast sp k) (Obj.get comp.statics k)) := by
  constructor
  · intro comp sp hdec
    unfold SlotImpl.useSlot
    rw [if_pos (by simp [hdec])]
    refine ⟨rfl, rfl, rfl, ?_⟩
    intro k
    show Obj.get (Obj.assign (comp.statics.foldl
      (fun acc kv => Obj.set acc kv.1 (SlotImpl.shallowCopyVal kv.2)) []) sp) k = _
    rw [Obj.get_assign, slot_clone_get]
    simp
  · intro comp sp hdec
    unfold SlotImpl.useSlot
    rw [if_neg (by simp [hdec])]
    refine ⟨rfl, rfl, rfl, ?_⟩
    intro k
    show Obj.get (Obj.assign comp.statics sp) k = _
    rw [Obj.get_assign]

/-- C10 witness: a decorated component with one static is cloned — the
original is untouched, the clone is a different object carrying the old
static (shallow-copied) under the new ones. -/
theorem claim10_useSlot_clone_witness :
    (SlotImpl.useSlot ⟨true, [("Left", JSVal.obj [("x", JSVal.num 1)])]⟩
        [("Right", JSVal.num 2)]).original
      = (⟨true, [("Left", JSVal.obj [("x", JSVal.num 1)])]⟩ : SlotImpl.SlotComp)
    ∧ (SlotImpl.useSlot ⟨true, [("Left", JSVal.obj [("x", JSVal.num 1)])]⟩
        [("Right", JSVal.num 2)]).isSameObject = false
    ∧ (SlotImpl.useSlot ⟨false, [("Left", JSVal.obj [("x", JSVal.num 1)])]⟩
        [("Right", JSVal.num 2)]).isSameObject = true := by
  refine ⟨?_, ?_, ?_⟩
  · exact (claim10_useSlot_clone.1 ⟨true, [("Left", JSVal.obj [("x", JSVal.num 1)])]⟩
      [("Right", JSVal.num 2)] rfl).1
  · exact (claim10_useSlot_clone.1 ⟨true, [("Left", JSVal.obj [("x", JSVal.num 1)])]⟩
      [("Right", JSVal.num 2)] rfl).2.1
  · exact (claim10_useSlot_clone.2 ⟨false, [("Left", JSVal.obj [("x", JSVal.num 1)])]⟩
      [("Right", JSVal.num 2)] rfl).1
